import Mathlib

/-!
# Hashtable with external chaining (hashtable.c / hashtable.h)

A shallow embedding of the chained hashtable of `hashtable.c`.

* A byte is a value `0 .. 255`; a key buffer (`void *key`) is the list of the
  bytes it points at, and the length argument (`size_t key_length`) is passed
  next to it exactly as in the C signatures.
* An item (`void *item`) is an address, a natural number; `NULL` is `0`.
* A bucket chain (nodes linked through `next`) is the list of its nodes in
  chain order; the store (`hashtable_node_t **store`) is the list of the chains.
* `int` values are integers; `unsigned int` arithmetic is taken modulo `2^32`.
  The counter `count` is an unbounded integer (overflow of `count` is not
  modelled).
* Allocation (`malloc`, `calloc`) always succeeds. A call of `free` has no
  effect on the table state; `___hashtable_destroy`, whose only effect is to
  release memory, is modelled by the list of the blocks it releases.
-/

namespace Hashtable

/-- One byte of a key buffer, as an unsigned value. -/
abbrev Byte := Fin 256

/-- A `void *` item, as an address. -/
abbrev Ptr := Nat

/-- The null pointer. -/
def NULL : Ptr := 0

/-- The struct `hashtable_node_t_t` without its `next` link: the link is the
tail of the list that holds the node. -/
structure hashtable_node_t where
  key_length : Nat
  key : List Byte
  item : Ptr
deriving DecidableEq

/-- The struct `hashtable_t_t` without the method pointers, which always hold
the five functions of `hashtable.c`. -/
structure hashtable_t where
  count : Int
  store_size : Int
  store : List (List hashtable_node_t)
deriving DecidableEq

/-! ## Integer conversions of C -/

/-- Conversion of an `int` to `unsigned int`: reduction modulo `2^32`. -/
def to_unsigned (x : Int) : Nat := (x % 4294967296).toNat

/-- Conversion of an `unsigned int` to `int` (`int i = ___hashtable_hash(...)`):
values from `2^31` on wrap to negative numbers. -/
def to_int (u : Nat) : Int :=
  if u < 2147483648 then (u : Int) else (u : Int) - 4294967296

/-- Modelled from the spec: the signedness of plain `char`, which the C source
leaves to the platform. The spec says the source treats bytes as signed 8-bit
values, so the value read through `(char *)key` is in `-128 .. 127`. -/
def char_value (b : Byte) : Int :=
  if b.val < 128 then (b.val : Int) else (b.val : Int) - 256

/-! ## `___hashtable_hash` and `___hashtable_compare_keys` -/

/-- The loop body `hash = (hash << 5) ^ ((char *)key)[i] ^ hash;` on an
`unsigned int`: the shift is reduced modulo `2^32`, and the `char` operand is
promoted to `int` and converted to `unsigned int` for the exclusive or. -/
def hash_body (hash : Nat) (c : Byte) : Nat :=
  (((hash <<< 5) % 4294967296) ^^^ to_unsigned (char_value c)) ^^^ hash

/-- The loop `for (i = 0; i < key_len; i++)` of `___hashtable_hash`: the first
argument is the number of iterations still to run (`key_len - i`), the second
the counter `i`, the third the running `hash`. The counter is an `int` in C,
which key lengths below `2^31` keep in range. A read past the end of the
modelled buffer (undefined in C) yields the byte 0. -/
def hash_loop (key : List Byte) : Nat → Nat → Nat → Nat
  | 0, _, hash => hash
  | r + 1, i, hash => hash_loop key r (i + 1) (hash_body hash (key.getD i 0))

/-- Function `unsigned int ___hashtable_hash(void *key, size_t key_len, int
max_key)`. The `int` operand `max_key` is converted to `unsigned int` in both
the sum and the remainder. A zero modulus (undefined in C) is outside the
model. -/
def ___hashtable_hash (key : List Byte) (key_len : Nat) (max_key : Int) : Nat :=
  let hash := hash_loop key key_len 0 1
  ((hash + to_unsigned max_key) % 4294967296) % to_unsigned max_key

/-- The library call `memcmp` on the first `n` bytes of two buffers: zero when
they agree, and otherwise the difference of the first two bytes that differ.
Where a modelled buffer is shorter than `n` (a read past its end, undefined in
C) the shorter one compares smaller. -/
def memcmp : List Byte → List Byte → Nat → Int
  | _, _, 0 => 0
  | [], [], _ + 1 => 0
  | [], _ :: _, _ + 1 => -1
  | _ :: _, [], _ + 1 => 1
  | a :: s1, b :: s2, n + 1 =>
    if a = b then memcmp s1 s2 n else (a.val : Int) - (b.val : Int)

/-- Function `int ___hashtable_compare_keys(void *key, size_t key_len, void
*key1, size_t key_len1)`: 0 for different lengths, else the value of
`memcmp(key, key1, key_len) == 0`. -/
def ___hashtable_compare_keys (key : List Byte) (key_len : Nat)
    (key1 : List Byte) (key_len1 : Nat) : Int :=
  if key_len ≠ key_len1 then 0
  else if memcmp key key1 key_len = 0 then 1 else 0

/-! ## The table operations -/

/-- Function `create_hashtable`: `calloc` gives `store_size` empty chains (none
when `store_size` is not positive). -/
def create_hashtable (store_size : Int) : hashtable_t :=
  { store_size := store_size
    store := List.replicate store_size.toNat []
    count := 0 }

/-- The walk `while (*location) location = &((*location)->next);` followed by
`*location = node;`: the link that is overwritten is the first null one. -/
def add_walk (node : hashtable_node_t) : List hashtable_node_t → List hashtable_node_t
  | [] => [node]
  | n :: next => n :: add_walk node next

/-- Function `___hashtable_add`. A bucket index outside the store (undefined in
C) reads an empty chain and writes nothing. -/
def ___hashtable_add (h : hashtable_t) (key : List Byte) (key_length : Nat)
    (item : Ptr) : hashtable_t :=
  let node : hashtable_node_t := { key_length := key_length, key := key, item := item }
  let i := to_int (___hashtable_hash key key_length h.store_size)
  { h with
    store := h.store.set i.toNat (add_walk node (h.store.getD i.toNat []))
    count := h.count + 1 }

/-- The loop of `___hashtable_remove` with the unlinking `*node_location =
node->next;`: the result is the node the loop stopped at (`none` for a null
`node`) and the chain after the call. -/
def remove_walk (key : List Byte) (key_length : Nat) :
    List hashtable_node_t → Option hashtable_node_t × List hashtable_node_t
  | [] => (none, [])
  | node :: next =>
    if ___hashtable_compare_keys key key_length node.key node.key_length ≠ 0 then
      (some node, next)
    else
      ((remove_walk key key_length next).1, node :: (remove_walk key key_length next).2)

/-- Function `___hashtable_remove`: the returned pointer and the table after
the call. -/
def ___hashtable_remove (h : hashtable_t) (key : List Byte) (key_length : Nat) :
    Ptr × hashtable_t :=
  let i := to_int (___hashtable_hash key key_length h.store_size)
  match remove_walk key key_length (h.store.getD i.toNat []) with
  | (some node, chain) =>
    (node.item, { h with store := h.store.set i.toNat chain, count := h.count - 1 })
  | (none, _) => (NULL, h)

/-- The loop of `___hashtable_get`: the node the loop stopped at, `none` for a
null `node`. -/
def get_walk (key : List Byte) (key_length : Nat) :
    List hashtable_node_t → Option hashtable_node_t
  | [] => none
  | node :: next =>
    if ___hashtable_compare_keys key key_length node.key node.key_length ≠ 0 then
      some node
    else
      get_walk key key_length next

/-- Function `___hashtable_get`: the returned pointer (the table is not
written). -/
def ___hashtable_get (h : hashtable_t) (key : List Byte) (key_length : Nat) : Ptr :=
  let i := to_int (___hashtable_hash key key_length h.store_size)
  match get_walk key key_length (h.store.getD i.toNat []) with
  | some node => node.item
  | none => NULL

/-- Function `___hashtable_is_empty`: the value of `h->count == 0` as an `int`. -/
def ___hashtable_is_empty (h : hashtable_t) : Int :=
  if h.count = 0 then 1 else 0

/-! ## Specification-side definitions -/

/-- The byte read as a signed 8-bit value and sign-extended to 32 bits, as an
unsigned 32-bit number: a byte from `0x80` on has the upper 24 bits set. -/
def sext (b : Byte) : Nat :=
  if b.val < 128 then b.val else 4294967040 + b.val

/-- The 32-bit value `H` of the specification: start from 1 and fold
`H := ((H << 5) XOR sext(b) XOR H) mod 2^32` over the bytes in order. -/
def hash_spec (key : List Byte) : Nat :=
  key.foldl (fun H b => (((H <<< 5) ^^^ sext b) ^^^ H) % 4294967296) 1

/-- Two keys are equal: the same length and the same bytes. The first key is
given as the arguments of a call, the second as the fields of a stored node. -/
def key_equal (key : List Byte) (key_length : Nat) (node : hashtable_node_t) : Prop :=
  key_length = node.key_length ∧ key.take key_length = node.key.take node.key_length

instance (key : List Byte) (key_length : Nat) (node : hashtable_node_t) :
    Decidable (key_equal key key_length node) :=
  inferInstanceAs
    (Decidable (key_length = node.key_length
      ∧ key.take key_length = node.key.take node.key_length))

/-- The position in the store that `add`, `get` and `remove` compute for a key:
the `int i` of their first line, as an index. -/
def bucket_index (store_size : Int) (key : List Byte) (key_length : Nat) : Nat :=
  (to_int (___hashtable_hash key key_length store_size)).toNat

/-- One call of the interface that writes the table. -/
inductive Op where
  | add (key : List Byte) (key_length : Nat) (item : Ptr)
  | remove (key : List Byte) (key_length : Nat)
deriving DecidableEq

/-- The table after one call. -/
def apply_op (h : hashtable_t) : Op → hashtable_t
  | .add key key_length item => ___hashtable_add h key key_length item
  | .remove key key_length => (___hashtable_remove h key key_length).2

/-- The table after a sequence of calls, first call first. -/
def run_ops (h : hashtable_t) (ops : List Op) : hashtable_t :=
  ops.foldl apply_op h

/-- One call on the insertion-ordered list of the specification: `add` puts the
new entry at the end, `remove` deletes the first entry whose key equals the
key of the call. -/
def model_step (l : List hashtable_node_t) : Op → List hashtable_node_t
  | .add key key_length item => l ++ [⟨key_length, key, item⟩]
  | .remove key key_length => l.eraseP (fun e => decide (key_equal key key_length e))

/-- The entries held after a sequence of calls on an empty container, in the
order of their insertion (earliest first), following the specification. -/
def model_entries (ops : List Op) : List hashtable_node_t :=
  ops.foldl model_step []

/-- The table holds exactly the entries of `l`: each chain is the sublist of the
entries of its bucket, in the order of `l`, and `count` is the length of `l`. -/
def Rep (h : hashtable_t) (l : List hashtable_node_t) : Prop :=
  1 ≤ h.store_size ∧ h.store_size ≤ 2147483647
    ∧ (h.store.length : Int) = h.store_size
    ∧ h.count = (l.length : Int)
    ∧ ∀ i, i < h.store.length →
        h.store.getD i [] = l.filter (fun e => decide (bucket_index h.store_size e.key e.key_length = i))

/-- The table after a sequence of `add` calls, each given as its key and item;
the length passed with a key is the length of the key. -/
def add_all (h : hashtable_t) (adds : List (List Byte × Ptr)) : hashtable_t :=
  adds.foldl (fun h a => ___hashtable_add h a.1 a.1.length a.2) h

/-- The sum of the lengths of all bucket chains. -/
def total_chain_length (h : hashtable_t) : Nat :=
  (h.store.map List.length).sum

/-- A table of one bucket whose chain holds the keys `"x"`, `"y"`, `"x"` in
this order, with the items 10, 20 and 30. -/
def one_bucket_table : hashtable_t :=
  { count := 3
    store_size := 1
    store := [[⟨1, [0x78], 10⟩, ⟨1, [0x79], 20⟩, ⟨1, [0x78], 30⟩]] }

/-- The test `if (node)` of `___hashtable_remove` on a table: whether the loop
of the call stops at a node, that is, whether the call finds a matching entry. -/
def remove_finds (h : hashtable_t) (key : List Byte) (key_length : Nat) : Bool :=
  (remove_walk key key_length
    (h.store.getD (to_int (___hashtable_hash key key_length h.store_size)).toNat [])).1.isSome

/-- The number of `add` calls in a sequence of calls. -/
def count_adds : List Op → Nat
  | [] => 0
  | .add _ _ _ :: ops => count_adds ops + 1
  | .remove _ _ :: ops => count_adds ops

/-- The number of `remove` calls of a sequence, run from the table `h`, that
find a matching entry in the table they are called on. -/
def count_found_removes (h : hashtable_t) : List Op → Nat
  | [] => 0
  | .add key key_length item :: ops =>
    count_found_removes (___hashtable_add h key key_length item) ops
  | .remove key key_length :: ops =>
    (if remove_finds h key key_length then 1 else 0)
      + count_found_removes (___hashtable_remove h key key_length).2 ops

/-- The loop of `___hashtable_get` with the table threaded through it: the table
after the loop and the node the loop stopped at. No statement of the loop
assigns through `h` or through a node. -/
def get_loop (h : hashtable_t) (key : List Byte) (key_length : Nat) :
    List hashtable_node_t → hashtable_t × Option hashtable_node_t
  | [] => (h, none)
  | node :: next =>
    if ___hashtable_compare_keys key key_length node.key node.key_length ≠ 0 then
      (h, some node)
    else
      get_loop h key key_length next

/-- Function `___hashtable_get` as a state transformer: the returned pointer
and the table after the call. -/
def get_call (h : hashtable_t) (key : List Byte) (key_length : Nat) : Ptr × hashtable_t :=
  let i := to_int (___hashtable_hash key key_length h.store_size)
  match get_loop h key key_length (h.store.getD i.toNat []) with
  | (h1, some node) => (node.item, h1)
  | (h1, none) => (NULL, h1)

/-- A block of memory that a call of `free` can release: an entry node (given
by its contents), the bucket array `store`, the `hashtable_t` struct, or the
payload an item points at. -/
inductive Block where
  | node (n : hashtable_node_t)
  | store
  | table
  | item (p : Ptr)
deriving DecidableEq

/-- The loop `while ((item = h->store[i]))` of `___hashtable_destroy` on one
chain: each pass unlinks the head, releases it with `free(item)` and lowers
`count`. The result is `count` after the loop and the blocks released, in
order. -/
def destroy_chain (count : Int) : List hashtable_node_t → Int × List Block
  | [] => (count, [])
  | item :: next =>
    ((destroy_chain (count - 1) next).1, Block.node item :: (destroy_chain (count - 1) next).2)

/-- The loop `for (i = 0; i < h->store_size; i++)` of `___hashtable_destroy`:
the first argument is the number of passes still to run, the second the counter
`i`; the table and the blocks released so far are threaded through. -/
def destroy_loop : Nat → Nat → hashtable_t → List Block → hashtable_t × List Block
  | 0, _, h, freed => (h, freed)
  | r + 1, i, h, freed =>
    destroy_loop r (i + 1)
      { h with
        store := h.store.set i []
        count := (destroy_chain h.count (h.store.getD i [])).1 }
      (freed ++ (destroy_chain h.count (h.store.getD i [])).2)

/-- Function `___hashtable_destroy`: the blocks released by the call, in order.
After the loop over the buckets the only further statement is `free(h)`. -/
def ___hashtable_destroy (h : hashtable_t) : List Block :=
  (destroy_loop h.store_size.toNat 0 h []).2 ++ [Block.table]

/-- One call of the interface, `get` included. -/
inductive Call where
  | add (key : List Byte) (key_length : Nat) (item : Ptr)
  | get (key : List Byte) (key_length : Nat)
  | remove (key : List Byte) (key_length : Nat)
deriving DecidableEq

/-- The pointers returned by the `get` and `remove` calls of a sequence of
calls on the table `h`, in the order of the calls. -/
def run_calls (h : hashtable_t) : List Call → List Ptr
  | [] => []
  | .add key key_length item :: cs => run_calls (___hashtable_add h key key_length item) cs
  | .get key key_length :: cs => ___hashtable_get h key key_length :: run_calls h cs
  | .remove key key_length :: cs =>
    (___hashtable_remove h key key_length).1
      :: run_calls (___hashtable_remove h key key_length).2 cs

/-- The list model of the specification, `get`: the item of the first pair whose
key equals the key of the call, or `NULL`. -/
def list_get (l : List hashtable_node_t) (key : List Byte) (key_length : Nat) : Ptr :=
  match l.find? (fun e => decide (key_equal key key_length e)) with
  | some e => e.item
  | none => NULL

/-- The list model of the specification, `remove`: delete and return the first
pair whose key equals the key of the call, or return `NULL`. -/
def list_remove (l : List hashtable_node_t) (key : List Byte) (key_length : Nat) :
    Ptr × List hashtable_node_t :=
  match l.find? (fun e => decide (key_equal key key_length e)) with
  | some e => (e.item, l.eraseP (fun e => decide (key_equal key key_length e)))
  | none => (NULL, l)

/-- The pointers returned by the `get` and `remove` calls of a sequence of
calls on the list model, where `add` appends the pair at the end. -/
def list_calls (l : List hashtable_node_t) : List Call → List Ptr
  | [] => []
  | .add key key_length item :: cs => list_calls (l ++ [⟨key_length, key, item⟩]) cs
  | .get key key_length :: cs => list_get l key key_length :: list_calls l cs
  | .remove key key_length :: cs =>
    (list_remove l key key_length).1 :: list_calls (list_remove l key key_length).2 cs

/-- The table of the scenario `create_hashtable(4); add("a", 1); add("b", 2);
add("a", 3)`, just before the call `remove("a")`. -/
def scenario_table : hashtable_t :=
  ___hashtable_add (___hashtable_add (___hashtable_add (create_hashtable 4) [0x61] 1 1)
    [0x62] 1 2) [0x61] 1 3

/-! ## Lemmas -/

theorem to_unsigned_of_pos (n : Int) (h1 : 1 ≤ n) (h2 : n ≤ 2147483647) :
    to_unsigned n = n.toNat := by
  unfold to_unsigned
  omega

theorem to_int_of_lt (u : Nat) (h : u < 2147483648) : to_int u = (u : Int) := by
  unfold to_int
  simp [h]

theorem xor_mod_pow32 (a b : Nat) :
    (a ^^^ b) % 4294967296 = (a % 4294967296) ^^^ (b % 4294967296) := by
  have e : (4294967296 : Nat) = 2 ^ 32 := by norm_num
  rw [e]
  apply Nat.eq_of_testBit_eq
  intro i
  simp only [Nat.testBit_mod_two_pow, Nat.testBit_xor]
  cases decide (i < 32) <;> simp

theorem to_unsigned_char_value (c : Byte) : to_unsigned (char_value c) = sext c := by
  unfold to_unsigned char_value sext
  have hc := c.isLt
  split <;> omega

theorem sext_lt (c : Byte) : sext c < 4294967296 := by
  unfold sext
  have hc := c.isLt
  split <;> omega

theorem hash_body_lt (hash : Nat) (c : Byte) (h : hash < 4294967296) :
    hash_body hash c < 4294967296 := by
  unfold hash_body
  rw [to_unsigned_char_value]
  have e : (4294967296 : Nat) = 2 ^ 32 := by norm_num
  have h1 : (hash <<< 5) % 4294967296 < 2 ^ 32 := by rw [← e]; exact Nat.mod_lt _ (by norm_num)
  have h2 : sext c < 2 ^ 32 := by rw [← e]; exact sext_lt c
  have h3 : hash < 2 ^ 32 := by rw [← e]; exact h
  rw [e]
  exact Nat.xor_lt_two_pow (Nat.xor_lt_two_pow h1 h2) h3

theorem hash_body_eq_spec_step (hash : Nat) (c : Byte) (h : hash < 4294967296) :
    hash_body hash c = (((hash <<< 5) ^^^ sext c) ^^^ hash) % 4294967296 := by
  unfold hash_body
  rw [to_unsigned_char_value, xor_mod_pow32, xor_mod_pow32, Nat.mod_eq_of_lt (sext_lt c),
    Nat.mod_eq_of_lt h]

theorem hash_loop_eq_foldl (key : List Byte) (r i hash : Nat) (h : i + r ≤ key.length) :
    hash_loop key r i hash = ((key.drop i).take r).foldl hash_body hash := by
  induction r generalizing i hash with
  | zero => simp [hash_loop]
  | succ r ih =>
    have hi : i < key.length := by omega
    rw [hash_loop, ih (i + 1) _ (by omega)]
    rw [List.drop_eq_getElem_cons hi, List.take_succ_cons, List.foldl_cons]
    rw [List.getD_eq_getElem?_getD, List.getElem?_eq_getElem hi, Option.getD_some]

theorem hash_loop_full (key : List Byte) :
    hash_loop key key.length 0 1 = key.foldl hash_body 1 := by
  rw [hash_loop_eq_foldl key key.length 0 1 (by omega)]
  simp

theorem foldl_hash_body_lt (key : List Byte) (hash : Nat) (h : hash < 4294967296) :
    key.foldl hash_body hash < 4294967296 := by
  induction key generalizing hash with
  | nil => simpa using h
  | cons c cs ih => exact ih _ (hash_body_lt hash c h)

theorem foldl_hash_body_eq_spec (key : List Byte) (hash : Nat) (h : hash < 4294967296) :
    key.foldl hash_body hash
      = key.foldl (fun H b => (((H <<< 5) ^^^ sext b) ^^^ H) % 4294967296) hash := by
  induction key generalizing hash with
  | nil => rfl
  | cons c cs ih =>
    simp only [List.foldl_cons]
    rw [ih _ (hash_body_lt hash c h), hash_body_eq_spec_step hash c h]

theorem memcmp_eq_zero_iff (a b : List Byte) (n : Nat) :
    memcmp a b n = 0 ↔ a.take n = b.take n := by
  induction a generalizing b n with
  | nil =>
    cases n with
    | zero => simp [memcmp]
    | succ n => cases b <;> simp [memcmp]
  | cons x s1 ih =>
    cases n with
    | zero => simp [memcmp]
    | succ n =>
      cases b with
      | nil => simp [memcmp]
      | cons y s2 =>
        by_cases hxy : x = y
        · simp [memcmp, hxy, ih]
        · have hv : (x.val : Int) - (y.val : Int) ≠ 0 := by
            intro h0
            apply hxy
            apply Fin.ext
            omega
          simp [memcmp, hxy, hv]

theorem compare_keys_ne_zero_iff (key : List Byte) (key_len : Nat) (key1 : List Byte)
    (key_len1 : Nat) :
    ___hashtable_compare_keys key key_len key1 key_len1 ≠ 0
      ↔ key_len = key_len1 ∧ key.take key_len = key1.take key_len := by
  unfold ___hashtable_compare_keys
  by_cases hl : key_len = key_len1
  · subst hl
    by_cases hm : memcmp key key1 key_len = 0
    · simp [hm, (memcmp_eq_zero_iff _ _ _).mp hm]
    · have := (memcmp_eq_zero_iff key key1 key_len).not.mp hm
      simp [hm, this]
  · simp [hl]

theorem compare_keys_full_iff (a b : List Byte) :
    ___hashtable_compare_keys a a.length b b.length ≠ 0 ↔ a = b := by
  rw [compare_keys_ne_zero_iff]
  constructor
  · rintro ⟨hl, ht⟩
    rw [List.take_length] at ht
    rw [hl, List.take_length] at ht
    exact ht
  · rintro rfl
    simp

theorem hash_loop_lt (key : List Byte) (r i hash : Nat) (h : hash < 4294967296) :
    hash_loop key r i hash < 4294967296 := by
  induction r generalizing i hash with
  | zero => simpa [hash_loop] using h
  | succ r ih =>
    rw [hash_loop]
    exact ih _ _ (hash_body_lt hash _ h)

theorem hash_lt (key : List Byte) (key_len : Nat) (n : Int) (h1 : 1 ≤ n)
    (h2 : n ≤ 2147483647) : ___hashtable_hash key key_len n < n.toNat := by
  unfold ___hashtable_hash
  rw [to_unsigned_of_pos n h1 h2]
  exact Nat.mod_lt _ (by omega)

theorem compare_keys_iff_key_equal (key : List Byte) (key_length : Nat)
    (node : hashtable_node_t) :
    ___hashtable_compare_keys key key_length node.key node.key_length ≠ 0
      ↔ key_equal key key_length node := by
  rw [compare_keys_ne_zero_iff]
  unfold key_equal
  constructor
  · rintro ⟨hl, ht⟩
    exact ⟨hl, by rw [ht, hl]⟩
  · rintro ⟨hl, ht⟩
    exact ⟨hl, by rw [ht, hl]⟩

theorem add_walk_eq_append (node : hashtable_node_t) (chain : List hashtable_node_t) :
    add_walk node chain = chain ++ [node] := by
  induction chain with
  | nil => rfl
  | cons n next ih => simp [add_walk, ih]

theorem get_walk_eq_find (key : List Byte) (key_length : Nat)
    (chain : List hashtable_node_t) :
    get_walk key key_length chain
      = chain.find? (fun e => decide (key_equal key key_length e)) := by
  induction chain with
  | nil => rfl
  | cons node next ih =>
    by_cases hk : key_equal key key_length node
    · simp [get_walk, List.find?_cons, hk, (compare_keys_iff_key_equal key key_length node).mpr hk]
    · have hc : ___hashtable_compare_keys key key_length node.key node.key_length = 0 := by
        by_contra hne
        exact hk ((compare_keys_iff_key_equal key key_length node).mp hne)
      simp [get_walk, List.find?_cons, hk, hc, ih]

theorem remove_walk_eq_find_erase (key : List Byte) (key_length : Nat)
    (chain : List hashtable_node_t) :
    remove_walk key key_length chain
      = (chain.find? (fun e => decide (key_equal key key_length e)),
         chain.eraseP (fun e => decide (key_equal key key_length e))) := by
  induction chain with
  | nil => rfl
  | cons node next ih =>
    by_cases hk : key_equal key key_length node
    · simp [remove_walk, List.find?_cons, List.eraseP_cons, hk,
        (compare_keys_iff_key_equal key key_length node).mpr hk]
    · have hc : ___hashtable_compare_keys key key_length node.key node.key_length = 0 := by
        by_contra hne
        exact hk ((compare_keys_iff_key_equal key key_length node).mp hne)
      simp [remove_walk, List.find?_cons, List.eraseP_cons, hk, hc, ih]

theorem chain_split_of_mem (key : List Byte) (key_length : Nat)
    (chain : List hashtable_node_t)
    (hex : ∃ e, e ∈ chain ∧ key_equal key key_length e) :
    ∃ pre e post, chain = pre ++ e :: post
      ∧ (∀ x, x ∈ pre → ¬ key_equal key key_length x)
      ∧ key_equal key key_length e
      ∧ chain.find? (fun e => decide (key_equal key key_length e)) = some e
      ∧ chain.eraseP (fun e => decide (key_equal key key_length e)) = pre ++ post := by
  obtain ⟨a, ha, hpa⟩ := hex
  obtain ⟨e, pre, post, hpre, he, hsplit, herase⟩ :=
    List.exists_of_eraseP (p := fun e => decide (key_equal key key_length e)) ha (by simpa using hpa)
  refine ⟨pre, e, post, hsplit, ?_, by simpa using he, ?_, herase⟩
  · intro x hx
    simpa using hpre x hx
  · rw [List.find?_eq_some]
    exact ⟨he, pre, post, hsplit, fun x hx => by simpa using hpre x hx⟩

theorem bucket_index_lt (h : hashtable_t) (key : List Byte) (key_length : Nat)
    (h1 : 1 ≤ h.store_size) (h2 : h.store_size ≤ 2147483647)
    (h3 : (h.store.length : Int) = h.store_size) :
    bucket_index h.store_size key key_length < h.store.length := by
  have hl := hash_lt key key_length h.store_size h1 h2
  unfold bucket_index
  rw [to_int_of_lt _ (by omega)]
  omega

theorem add_eq (h : hashtable_t) (key : List Byte) (key_length : Nat) (item : Ptr) :
    ___hashtable_add h key key_length item
      = { h with
          store := h.store.set (bucket_index h.store_size key key_length)
            (h.store.getD (bucket_index h.store_size key key_length) [] ++ [⟨key_length, key, item⟩])
          count := h.count + 1 } := by
  simp only [___hashtable_add, add_walk_eq_append, bucket_index]

theorem remove_eq (h : hashtable_t) (key : List Byte) (key_length : Nat) :
    ___hashtable_remove h key key_length
      = match (h.store.getD (bucket_index h.store_size key key_length) []).find?
            (fun e => decide (key_equal key key_length e)) with
        | some node =>
          (node.item,
            { h with
              store := h.store.set (bucket_index h.store_size key key_length)
                ((h.store.getD (bucket_index h.store_size key key_length) []).eraseP
                  (fun e => decide (key_equal key key_length e)))
              count := h.count - 1 })
        | none => (NULL, h) := by
  simp only [___hashtable_remove, remove_walk_eq_find_erase, bucket_index]
  cases (h.store.getD (to_int (___hashtable_hash key key_length h.store_size)).toNat []).find?
    (fun e => decide (key_equal key key_length e)) <;> rfl

theorem get_eq (h : hashtable_t) (key : List Byte) (key_length : Nat) :
    ___hashtable_get h key key_length
      = match (h.store.getD (bucket_index h.store_size key key_length) []).find?
            (fun e => decide (key_equal key key_length e)) with
        | some node => node.item
        | none => NULL := by
  simp only [___hashtable_get, get_walk_eq_find, bucket_index]

theorem getD_of_getElem?_eq_some {α : Type} (l : List α) (i : Nat) (d x : α)
    (h : l[i]? = some x) : l.getD i d = x := by
  simp [List.getD_eq_getElem?_getD, h]

theorem getElem?_eq_some_getD {α : Type} (l : List α) (i : Nat) (d : α)
    (h : i < l.length) : l[i]? = some (l.getD i d) := by
  simp [List.getD_eq_getElem?_getD, List.getElem?_eq_getElem h]

theorem hash_loop_congr (key key1 : List Byte) (r i hash : Nat)
    (h : ∀ j, i ≤ j → j < i + r → key.getD j 0 = key1.getD j 0) :
    hash_loop key r i hash = hash_loop key1 r i hash := by
  induction r generalizing i hash with
  | zero => rfl
  | succ r ih =>
    rw [hash_loop, hash_loop, h i (by omega) (by omega)]
    exact ih _ _ (fun j h1 h2 => h j (by omega) (by omega))

theorem getD_of_take_eq (key key1 : List Byte) (n j : Nat) (hj : j < n)
    (h : key.take n = key1.take n) : key.getD j 0 = key1.getD j 0 := by
  have e1 : (key.take n)[j]? = key[j]? := List.getElem?_take_of_lt hj
  have e2 : (key1.take n)[j]? = key1[j]? := List.getElem?_take_of_lt hj
  rw [List.getD_eq_getElem?_getD, List.getD_eq_getElem?_getD, ← e1, ← e2, h]

theorem key_equal_bucket (n : Int) (key : List Byte) (key_length : Nat)
    (e : hashtable_node_t) (h : key_equal key key_length e) :
    bucket_index n e.key e.key_length = bucket_index n key key_length := by
  obtain ⟨hl, ht⟩ := h
  unfold bucket_index ___hashtable_hash
  rw [← hl] at ht ⊢
  rw [hash_loop_congr key e.key key_length 0 1
    (fun j _ hj => getD_of_take_eq key e.key key_length j (by omega) ht)]

theorem key_equal_self (key : List Byte) (key_length : Nat) (item : Ptr) :
    key_equal key key_length ⟨key_length, key, item⟩ := ⟨rfl, rfl⟩

theorem find_filter_of_imp {α : Type} (p q : α → Bool) (l : List α)
    (h : ∀ x, p x = true → q x = true) : (l.filter q).find? p = l.find? p := by
  induction l with
  | nil => rfl
  | cons a l ih =>
    by_cases hq : q a = true
    · simp [List.filter_cons, hq, List.find?_cons, ih]
    · have hp : p a = false := by
        cases hpa : p a
        · rfl
        · exact absurd (h a hpa) hq
      simp [List.filter_cons, hq, List.find?_cons, hp, ih]

theorem eraseP_filter_of_imp {α : Type} (p q : α → Bool) (l : List α)
    (h : ∀ x, p x = true → q x = true) :
    (l.eraseP p).filter q = (l.filter q).eraseP p := by
  induction l with
  | nil => rfl
  | cons a l ih =>
    by_cases hp : p a = true
    · simp [List.eraseP_cons, hp, List.filter_cons, h a hp]
    · by_cases hq : q a = true
      · simp [List.eraseP_cons, hp, List.filter_cons, hq, ih]
      · simp [List.eraseP_cons, hp, List.filter_cons, hq, ih]

theorem filter_eraseP_of_not {α : Type} (p q : α → Bool) (l : List α)
    (h : ∀ x, p x = true → q x = false) :
    (l.eraseP p).filter q = l.filter q := by
  induction l with
  | nil => rfl
  | cons a l ih =>
    by_cases hp : p a = true
    · simp [List.eraseP_cons, hp, List.filter_cons, h a hp]
    · simp [List.eraseP_cons, hp, List.filter_cons, ih]

theorem find_eraseP_eq_second {α : Type} (p : α → Bool) (l : List α) :
    (l.eraseP p).find? p = (l.filter p)[1]? := by
  induction l with
  | nil => rfl
  | cons a l ih =>
    by_cases hp : p a = true
    · simp only [List.eraseP_cons, hp, List.filter_cons, if_true, cond_true,
        List.getElem?_cons_succ]
      rw [← find_filter_of_imp p p l (fun _ hx => hx)]
      cases hf : l.filter p with
      | nil => rfl
      | cons b t =>
        have hb : p b = true := by
          have : b ∈ l.filter p := by rw [hf]; exact List.mem_cons_self _ _
          exact (List.mem_filter.mp this).2
        simp [List.find?_cons, hb]
    · simp [List.eraseP_cons, hp, List.filter_cons, List.find?_cons, ih]

theorem rep_create (n : Int) (h1 : 1 ≤ n) (h2 : n ≤ 2147483647) :
    Rep (create_hashtable n) [] := by
  refine ⟨h1, h2, ?_, rfl, ?_⟩
  · simp only [create_hashtable, List.length_replicate]
    omega
  · intro i hi
    simp only [create_hashtable, List.length_replicate] at hi
    simp [create_hashtable, List.getElem?_replicate, hi]

theorem rep_add (h : hashtable_t) (l : List hashtable_node_t) (key : List Byte)
    (key_length : Nat) (item : Ptr) (hr : Rep h l) :
    Rep (___hashtable_add h key key_length item) (l ++ [⟨key_length, key, item⟩]) := by
  obtain ⟨h1, h2, h3, h4, h5⟩ := hr
  have hi := bucket_index_lt h key key_length h1 h2 h3
  rw [add_eq]
  refine ⟨h1, h2, ?_, ?_, ?_⟩
  · simpa using h3
  · simp only [List.length_append, List.length_singleton, h4]
    push_cast
    rfl
  · intro i hi2
    simp only [List.length_set] at hi2
    simp only [List.filter_append]
    by_cases hii : bucket_index h.store_size key key_length = i
    · subst hii
      rw [getD_of_getElem?_eq_some _ _ _ _ (List.getElem?_set_self hi), h5 _ hi]
      simp [List.filter_cons]
    · rw [List.getD_eq_getElem?_getD, List.getElem?_set_ne hii, ← List.getD_eq_getElem?_getD,
        h5 i hi2]
      simp [List.filter_cons, hii]

theorem rep_find (h : hashtable_t) (l : List hashtable_node_t) (key : List Byte)
    (key_length : Nat) (hr : Rep h l) :
    (h.store.getD (bucket_index h.store_size key key_length) []).find?
        (fun e => decide (key_equal key key_length e))
      = l.find? (fun e => decide (key_equal key key_length e)) := by
  obtain ⟨h1, h2, h3, _, h5⟩ := hr
  rw [h5 _ (bucket_index_lt h key key_length h1 h2 h3)]
  apply find_filter_of_imp
  intro x hx
  simpa using key_equal_bucket h.store_size key key_length x (by simpa using hx)

theorem rep_get (h : hashtable_t) (l : List hashtable_node_t) (key : List Byte)
    (key_length : Nat) (hr : Rep h l) :
    ___hashtable_get h key key_length
      = match l.find? (fun e => decide (key_equal key key_length e)) with
        | some node => node.item
        | none => NULL := by
  rw [get_eq, rep_find h l key key_length hr]

theorem rep_remove (h : hashtable_t) (l : List hashtable_node_t) (key : List Byte)
    (key_length : Nat) (hr : Rep h l) :
    Rep (___hashtable_remove h key key_length).2
        (l.eraseP (fun e => decide (key_equal key key_length e)))
      ∧ (___hashtable_remove h key key_length).1
          = match l.find? (fun e => decide (key_equal key key_length e)) with
            | some node => node.item
            | none => NULL := by
  have hfind := rep_find h l key key_length hr
  obtain ⟨h1, h2, h3, h4, h5⟩ := hr
  have hi := bucket_index_lt h key key_length h1 h2 h3
  rw [remove_eq, hfind]
  cases hf : l.find? (fun e => decide (key_equal key key_length e)) with
  | none =>
    have hno : ∀ a, a ∈ l → ¬ (fun e => decide (key_equal key key_length e)) a = true := by
      intro a ha
      have := List.find?_eq_none.mp hf a ha
      simpa using this
    rw [List.eraseP_of_forall_not hno]
    exact ⟨⟨h1, h2, h3, h4, h5⟩, rfl⟩
  | some e =>
    have hmem : e ∈ l := List.mem_of_find?_eq_some hf
    have hpe : (fun e => decide (key_equal key key_length e)) e = true :=
      @List.find?_some _ (fun e => decide (key_equal key key_length e)) e l hf
    refine ⟨⟨h1, h2, ?_, ?_, ?_⟩, rfl⟩
    · simpa using h3
    · show h.count - 1 = _
      rw [List.length_eraseP_of_mem hmem hpe, h4]
      have : 1 ≤ l.length := List.length_pos_of_mem hmem
      omega
    · intro i hi2
      simp only [List.length_set] at hi2
      show (h.store.set _ _).getD i [] = _
      by_cases hii : bucket_index h.store_size key key_length = i
      · subst hii
        rw [getD_of_getElem?_eq_some _ _ _ _ (List.getElem?_set_self hi), h5 _ hi]
        symm
        apply eraseP_filter_of_imp
        intro x hx
        simpa using key_equal_bucket h.store_size key key_length x (by simpa using hx)
      · rw [List.getD_eq_getElem?_getD, List.getElem?_set_ne hii,
          ← List.getD_eq_getElem?_getD, h5 i hi2]
        symm
        apply filter_eraseP_of_not
        intro x hx
        have := key_equal_bucket h.store_size key key_length x (by simpa using hx)
        simp only [decide_eq_false_iff_not]
        omega

theorem rep_run (h : hashtable_t) (l : List hashtable_node_t) (ops : List Op)
    (hr : Rep h l) : Rep (run_ops h ops) (ops.foldl model_step l) := by
  induction ops generalizing h l with
  | nil => exact hr
  | cons op ops ih =>
    simp only [run_ops, List.foldl_cons]
    cases op with
    | add key key_length item => exact ih _ _ (rep_add h l key key_length item hr)
    | remove key key_length => exact ih _ _ (rep_remove h l key key_length hr).1

theorem rep_reachable (n : Int) (h1 : 1 ≤ n) (h2 : n ≤ 2147483647) (ops : List Op) :
    Rep (run_ops (create_hashtable n) ops) (model_entries ops) :=
  rep_run _ _ ops (rep_create n h1 h2)

theorem add_all_eq_run (h : hashtable_t) (adds : List (List Byte × Ptr)) :
    add_all h adds = run_ops h (adds.map (fun a => Op.add a.1 a.1.length a.2)) := by
  simp only [add_all, run_ops, List.foldl_map]
  rfl

theorem model_entries_adds (adds : List (List Byte × Ptr)) (l : List hashtable_node_t) :
    (adds.map (fun a => Op.add a.1 a.1.length a.2)).foldl model_step l
      = l ++ adds.map (fun a => (⟨a.1.length, a.1, a.2⟩ : hashtable_node_t)) := by
  induction adds generalizing l with
  | nil => simp
  | cons a adds ih => simp [List.foldl_cons, model_step, ih]

theorem key_equal_full_iff (k : List Byte) (a : List Byte) (v : Ptr) :
    key_equal k k.length ⟨a.length, a, v⟩ ↔ a = k := by
  unfold key_equal
  constructor
  · rintro ⟨hl, ht⟩
    simp only at hl ht
    rw [List.take_length, List.take_length] at ht
    exact ht.symm
  · rintro rfl
    exact ⟨rfl, rfl⟩

theorem sum_length_set (store : List (List hashtable_node_t)) (i : Nat)
    (c : List hashtable_node_t) (hi : i < store.length) :
    ((store.set i c).map List.length).sum + (store.getD i []).length
      = (store.map List.length).sum + c.length := by
  induction store generalizing i with
  | nil => simp at hi
  | cons x xs ih =>
    cases i with
    | zero => simp; omega
    | succ i =>
      have := ih i (by simpa using hi)
      simp only [List.set_cons_succ, List.map_cons, List.sum_cons, List.getD_cons_succ]
      omega

theorem count_total_step (h : hashtable_t) (op : Op)
    (h1 : 1 ≤ h.store_size) (h2 : h.store_size ≤ 2147483647)
    (h3 : (h.store.length : Int) = h.store_size)
    (h4 : h.count = (total_chain_length h : Int)) :
    1 ≤ (apply_op h op).store_size ∧ (apply_op h op).store_size ≤ 2147483647
      ∧ ((apply_op h op).store.length : Int) = (apply_op h op).store_size
      ∧ (apply_op h op).count = (total_chain_length (apply_op h op) : Int) := by
  cases op with
  | add key key_length item =>
    have hi := bucket_index_lt h key key_length h1 h2 h3
    simp only [apply_op, add_eq]
    refine ⟨h1, h2, by simpa using h3, ?_⟩
    have hs := sum_length_set h.store (bucket_index h.store_size key key_length)
      (h.store.getD (bucket_index h.store_size key key_length) [] ++ [⟨key_length, key, item⟩]) hi
    simp only [List.length_append, List.length_singleton] at hs
    simp only [total_chain_length] at h4 ⊢
    omega
  | remove key key_length =>
    have hi := bucket_index_lt h key key_length h1 h2 h3
    simp only [apply_op, remove_eq]
    cases hf : (h.store.getD (bucket_index h.store_size key key_length) []).find?
        (fun e => decide (key_equal key key_length e)) with
    | none => exact ⟨h1, h2, h3, h4⟩
    | some e =>
      have hmem := List.mem_of_find?_eq_some hf
      have hpe : (fun e => decide (key_equal key key_length e)) e = true :=
        @List.find?_some _ (fun e => decide (key_equal key key_length e)) e _ hf
      refine ⟨h1, h2, by simpa using h3, ?_⟩
      have hs := sum_length_set h.store (bucket_index h.store_size key key_length)
        ((h.store.getD (bucket_index h.store_size key key_length) []).eraseP
          (fun e => decide (key_equal key key_length e))) hi
      rw [List.length_eraseP_of_mem hmem hpe] at hs
      have hpos : 1 ≤ (h.store.getD (bucket_index h.store_size key key_length) []).length :=
        List.length_pos_of_mem hmem
      simp only [total_chain_length] at h4 ⊢
      omega

theorem count_total_run (h : hashtable_t) (ops : List Op)
    (h1 : 1 ≤ h.store_size) (h2 : h.store_size ≤ 2147483647)
    (h3 : (h.store.length : Int) = h.store_size)
    (h4 : h.count = (total_chain_length h : Int)) :
    (run_ops h ops).count = (total_chain_length (run_ops h ops) : Int) := by
  induction ops generalizing h with
  | nil => exact h4
  | cons op ops ih =>
    obtain ⟨a, b, c, d⟩ := count_total_step h op h1 h2 h3 h4
    exact ih _ a b c d

theorem remove_finds_eq (h : hashtable_t) (key : List Byte) (key_length : Nat) :
    remove_finds h key key_length
      = ((h.store.getD (bucket_index h.store_size key key_length) []).find?
          (fun e => decide (key_equal key key_length e))).isSome := by
  simp only [remove_finds, remove_walk_eq_find_erase, bucket_index]

theorem remove_count (h : hashtable_t) (key : List Byte) (key_length : Nat) :
    (___hashtable_remove h key key_length).2.count
      = h.count - (if remove_finds h key key_length then 1 else 0) := by
  rw [remove_finds_eq, remove_eq]
  cases (h.store.getD (bucket_index h.store_size key key_length) []).find?
      (fun e => decide (key_equal key key_length e)) with
  | none => simp
  | some e => simp

theorem count_run (h : hashtable_t) (ops : List Op) :
    (run_ops h ops).count
      = h.count + (count_adds ops : Int) - (count_found_removes h ops : Int) := by
  induction ops generalizing h with
  | nil => simp [run_ops, count_adds, count_found_removes]
  | cons op ops ih =>
    cases op with
    | add key key_length item =>
      have e := ih (___hashtable_add h key key_length item)
      have hc : (___hashtable_add h key key_length item).count = h.count + 1 := rfl
      simp only [run_ops, List.foldl_cons, apply_op, count_adds, count_found_removes] at e ⊢
      rw [e, hc]
      push_cast
      omega
    | remove key key_length =>
      have e := ih (___hashtable_remove h key key_length).2
      have hc := remove_count h key key_length
      simp only [run_ops, List.foldl_cons, apply_op, count_adds, count_found_removes] at e ⊢
      rw [e, hc]
      split <;> push_cast <;> omega

theorem run_ops_store_size (h : hashtable_t) (ops : List Op) :
    (run_ops h ops).store_size = h.store_size := by
  induction ops generalizing h with
  | nil => rfl
  | cons op ops ih =>
    simp only [run_ops, List.foldl_cons]
    rw [← run_ops, ih]
    cases op with
    | add key key_length item => rfl
    | remove key key_length =>
      simp only [apply_op, remove_eq]
      split <;> rfl

theorem bucket_index_eq_hash (n : Int) (h1 : 1 ≤ n) (h2 : n ≤ 2147483647) (key : List Byte)
    (key_length : Nat) : bucket_index n key key_length = ___hashtable_hash key key_length n := by
  have hl := hash_lt key key_length n h1 h2
  unfold bucket_index
  rw [to_int_of_lt _ (by omega)]
  omega

theorem key_equal_full_decide (k a : List Byte) (v : Ptr) :
    decide (key_equal k k.length ⟨a.length, a, v⟩) = decide (a = k) := by
  simp [key_equal_full_iff]

theorem rep_three_adds (n : Int) (h1 : 1 ≤ n) (h2 : n ≤ 2147483647) (a b : List Byte)
    (v1 v2 v3 : Ptr) :
    Rep (___hashtable_add (___hashtable_add (___hashtable_add (create_hashtable n)
          a a.length v1) b b.length v2) a a.length v3)
      [⟨a.length, a, v1⟩, ⟨b.length, b, v2⟩, ⟨a.length, a, v3⟩] :=
  rep_add _ _ a a.length v3
    (rep_add _ _ b b.length v2 (rep_add _ _ a a.length v1 (rep_create n h1 h2)))

theorem rep_one_add (n : Int) (h1 : 1 ≤ n) (h2 : n ≤ 2147483647) (key : List Byte)
    (key_length : Nat) (item : Ptr) :
    Rep (___hashtable_add (create_hashtable n) key key_length item)
      [⟨key_length, key, item⟩] :=
  rep_add _ _ key key_length item (rep_create n h1 h2)

theorem get_loop_eq (h : hashtable_t) (key : List Byte) (key_length : Nat)
    (chain : List hashtable_node_t) :
    get_loop h key key_length chain = (h, get_walk key key_length chain) := by
  induction chain with
  | nil => rfl
  | cons node next ih =>
    by_cases hc : ___hashtable_compare_keys key key_length node.key node.key_length ≠ 0
    · rw [get_loop, get_walk, if_pos hc, if_pos hc]
    · rw [get_loop, get_walk, if_neg hc, if_neg hc, ih]

theorem destroy_chain_released (count : Int) (chain : List hashtable_node_t) :
    (destroy_chain count chain).2 = chain.map Block.node := by
  induction chain generalizing count with
  | nil => rfl
  | cons item next ih => simp [destroy_chain, ih]

theorem destroy_loop_released (r i : Nat) (h : hashtable_t) (freed : List Block) :
    (destroy_loop r i h freed).2
      = freed ++ (((h.store.drop i).take r).flatten).map Block.node := by
  induction r generalizing i h freed with
  | zero => simp [destroy_loop]
  | succ r ih =>
    rw [destroy_loop, ih, destroy_chain_released]
    simp only [List.drop_set_of_lt _ _ (Nat.lt_succ_self i)]
    by_cases hi : i < h.store.length
    · rw [List.drop_eq_getElem_cons hi, List.take_succ_cons, List.flatten_cons, List.map_append,
        List.getD_eq_getElem?_getD, List.getElem?_eq_getElem hi, Option.getD_some,
        List.append_assoc]
    · have h1 : h.store.drop i = [] := List.drop_eq_nil_of_le (by omega)
      have h2 : h.store.drop (i + 1) = [] := List.drop_eq_nil_of_le (by omega)
      have h3 : h.store[i]? = none := List.getElem?_eq_none (by omega)
      simp [h1, h2, h3]

theorem destroy_eq (h : hashtable_t) (h3 : (h.store.length : Int) = h.store_size) :
    ___hashtable_destroy h = h.store.flatten.map Block.node ++ [Block.table] := by
  unfold ___hashtable_destroy
  rw [destroy_loop_released, List.drop_zero, List.take_of_length_le (by omega), List.nil_append]

theorem rep_calls (h : hashtable_t) (l : List hashtable_node_t) (calls : List Call)
    (hr : Rep h l) : run_calls h calls = list_calls l calls := by
  induction calls generalizing h l with
  | nil => rfl
  | cons c cs ih =>
    cases c with
    | add key key_length item =>
      simp only [run_calls, list_calls]
      exact ih _ _ (rep_add h l key key_length item hr)
    | get key key_length =>
      simp only [run_calls, list_calls]
      rw [rep_get h l key key_length hr, ih h l hr]
      rfl
    | remove key key_length =>
      have hrem := rep_remove h l key key_length hr
      have hl1 : (list_remove l key key_length).1
          = match l.find? (fun e => decide (key_equal key key_length e)) with
            | some node => node.item
            | none => NULL := by
        unfold list_remove
        cases l.find? (fun e => decide (key_equal key key_length e)) <;> rfl
      have hl2 : (list_remove l key key_length).2
          = l.eraseP (fun e => decide (key_equal key key_length e)) := by
        unfold list_remove
        cases hf : l.find? (fun e => decide (key_equal key key_length e)) with
        | none =>
          have hno : ∀ a, a ∈ l → ¬ (fun e => decide (key_equal key key_length e)) a = true := by
            intro a ha
            simpa using List.find?_eq_none.mp hf a ha
          simp only [List.eraseP_of_forall_not hno]
        | some e => rfl
      simp only [run_calls, list_calls]
      rw [hrem.2, hl1, hl2, ih _ _ hrem.1]

/-! ## The claims -/

/-- C1: for every `store_size` `n ≥ 1` (also `n = 1`, a single bucket) and
every sequence of `add` calls on `create_hashtable n`, for every key `k` that
was added, `get` on `k` returns the item of the earliest `add` of the sequence
whose key is `k` (same length, same bytes), whatever other keys were added. -/
theorem get_returns_earliest_added (n : Int) (h1 : 1 ≤ n) (h2 : n ≤ 2147483647)
    (adds : List (List Byte × Ptr)) (k : List Byte) (hk : ∃ v, (k, v) ∈ adds) :
    ∃ a, adds.find? (fun a => decide (a.1 = k)) = some a
      ∧ ___hashtable_get (add_all (create_hashtable n) adds) k k.length = a.2 := by
  have hr := rep_reachable n h1 h2 (adds.map (fun a => Op.add a.1 a.1.length a.2))
  rw [← add_all_eq_run] at hr
  rw [rep_get _ _ k k.length hr]
  simp only [model_entries, model_entries_adds, List.nil_append, List.find?_map]
  have hfun : ((fun e => decide (key_equal k k.length e))
      ∘ fun a : List Byte × Ptr => (⟨a.1.length, a.1, a.2⟩ : hashtable_node_t))
      = fun a => decide (a.1 = k) := by
    funext a
    simp [key_equal_full_iff]
  rw [hfun]
  obtain ⟨v, hv⟩ := hk
  cases hf : adds.find? (fun a => decide (a.1 = k)) with
  | none =>
    have := List.find?_eq_none.mp hf (k, v) hv
    simp at this
  | some a => exact ⟨a, rfl, rfl⟩

theorem get_returns_earliest_added_witness :
    ((1 : Int) ≤ 1 ∧ (1 : Int) ≤ 2147483647)
      ∧ (∃ v, (([0x78] : List Byte), v)
          ∈ [(([0x78] : List Byte), (11 : Ptr)), ([0x79], 12), ([0x78], 13), ([0x7a], 14)])
      ∧ (∃ a, [(([0x78] : List Byte), (11 : Ptr)), ([0x79], 12), ([0x78], 13), ([0x7a], 14)].find?
              (fun a => decide (a.1 = [0x78])) = some a
          ∧ ___hashtable_get
              (add_all (create_hashtable 1) [([0x78], 11), ([0x79], 12), ([0x78], 13), ([0x7a], 14)])
              [0x78] ([0x78] : List Byte).length = a.2)
      ∧ ___hashtable_get
          (add_all (create_hashtable 1) [([0x78], 11), ([0x79], 12), ([0x78], 13), ([0x7a], 14)])
          [0x78] 1 = 11 :=
  ⟨by decide, ⟨11, by decide⟩,
    get_returns_earliest_added 1 (by decide) (by decide)
      [([0x78], 11), ([0x79], 12), ([0x78], 13), ([0x7a], 14)] [0x78] ⟨11, by decide⟩,
    by decide⟩

/-- C2: in every table state reached from `create_hashtable n`, `n ≥ 1`, by a
finite sequence of `add` and `remove` calls, `count` equals the sum of the
lengths of all bucket chains (`count` as an unbounded integer). -/
theorem count_eq_total_chain_length (n : Int) (h1 : 1 ≤ n) (h2 : n ≤ 2147483647)
    (ops : List Op) :
    (run_ops (create_hashtable n) ops).count
      = (total_chain_length (run_ops (create_hashtable n) ops) : Int) := by
  apply count_total_run _ ops h1 h2
  · simp only [create_hashtable, List.length_replicate]
    omega
  · simp [create_hashtable, total_chain_length]

theorem count_eq_total_chain_length_witness :
    ((1 : Int) ≤ 4 ∧ (4 : Int) ≤ 2147483647)
      ∧ (run_ops (create_hashtable 4)
            [.add [0x61] 1 1, .add [0x62] 1 2, .add [0x61] 1 3, .remove [0x61] 1,
              .remove [0x7a] 1]).count
          = (total_chain_length (run_ops (create_hashtable 4)
              [.add [0x61] 1 1, .add [0x62] 1 2, .add [0x61] 1 3, .remove [0x61] 1,
                .remove [0x7a] 1]) : Int)
      ∧ (run_ops (create_hashtable 4)
            [.add [0x61] 1 1, .add [0x62] 1 2, .add [0x61] 1 3, .remove [0x61] 1,
              .remove [0x7a] 1]).count = 2 :=
  ⟨by decide,
    count_eq_total_chain_length 4 (by decide) (by decide)
      [.add [0x61] 1 1, .add [0x62] 1 2, .add [0x61] 1 3, .remove [0x61] 1, .remove [0x7a] 1],
    by decide⟩

/-- C3: for every table with `1 ≤ store_size` (an `int`, over a store of
`store_size` chains) and every key that some entry of the chain of its bucket
equals, that chain splits as `pre ++ e :: post` with `e` the first entry equal
to the key; `remove` returns the item of `e`, the chain becomes `pre ++ post`,
every other bucket is unchanged, `count` drops by exactly 1 and `store_size`
stays. -/
theorem remove_unlinks_first_match (h : hashtable_t) (key : List Byte) (key_length : Nat)
    (h1 : 1 ≤ h.store_size) (h2 : h.store_size ≤ 2147483647)
    (h3 : (h.store.length : Int) = h.store_size)
    (hex : ∃ e, e ∈ h.store.getD (bucket_index h.store_size key key_length) []
      ∧ key_equal key key_length e) :
    ∃ pre e post,
      h.store[bucket_index h.store_size key key_length]? = some (pre ++ e :: post)
      ∧ (∀ x, x ∈ pre → ¬ key_equal key key_length x)
      ∧ key_equal key key_length e
      ∧ (___hashtable_remove h key key_length).1 = e.item
      ∧ (___hashtable_remove h key key_length).2.store[bucket_index h.store_size key key_length]?
          = some (pre ++ post)
      ∧ (∀ j, j ≠ bucket_index h.store_size key key_length →
          (___hashtable_remove h key key_length).2.store[j]? = h.store[j]?)
      ∧ (___hashtable_remove h key key_length).2.store.length = h.store.length
      ∧ (___hashtable_remove h key key_length).2.count = h.count - 1
      ∧ (___hashtable_remove h key key_length).2.store_size = h.store_size := by
  have hi := bucket_index_lt h key key_length h1 h2 h3
  obtain ⟨pre, e, post, hsplit, hpre, he, hfind, herase⟩ :=
    chain_split_of_mem key key_length _ hex
  refine ⟨pre, e, post, ?_, hpre, he, ?_⟩
  · rw [getElem?_eq_some_getD h.store _ [] hi, hsplit]
  · rw [remove_eq, hfind, herase]
    refine ⟨rfl, ?_, ?_, ?_, rfl, rfl⟩
    · simp [hi]
    · intro j hj
      simp [List.getElem?_set_ne (Ne.symm hj)]
    · simp

theorem remove_unlinks_first_match_witness :
    (∃ e, e ∈ one_bucket_table.store.getD (bucket_index one_bucket_table.store_size [0x79] 1) []
        ∧ key_equal [0x79] 1 e)
      ∧ (∃ pre e post,
          one_bucket_table.store[bucket_index one_bucket_table.store_size [0x79] 1]?
              = some (pre ++ e :: post)
            ∧ (∀ x, x ∈ pre → ¬ key_equal [0x79] 1 x)
            ∧ key_equal [0x79] 1 e
            ∧ (___hashtable_remove one_bucket_table [0x79] 1).1 = e.item
            ∧ (___hashtable_remove one_bucket_table [0x79] 1).2.store[
                  bucket_index one_bucket_table.store_size [0x79] 1]?
                = some (pre ++ post)
            ∧ (∀ j, j ≠ bucket_index one_bucket_table.store_size [0x79] 1 →
                (___hashtable_remove one_bucket_table [0x79] 1).2.store[j]?
                  = one_bucket_table.store[j]?)
            ∧ (___hashtable_remove one_bucket_table [0x79] 1).2.store.length
                = one_bucket_table.store.length
            ∧ (___hashtable_remove one_bucket_table [0x79] 1).2.count
                = one_bucket_table.count - 1
            ∧ (___hashtable_remove one_bucket_table [0x79] 1).2.store_size
                = one_bucket_table.store_size)
      ∧ ___hashtable_remove one_bucket_table [0x79] 1
          = (20, ⟨2, 1, [[⟨1, [0x78], 10⟩, ⟨1, [0x78], 30⟩]]⟩) :=
  ⟨⟨⟨1, [0x79], 20⟩, by decide, by decide⟩,
    remove_unlinks_first_match one_bucket_table [0x79] 1 (by decide) (by decide) (by decide)
      ⟨⟨1, [0x79], 20⟩, by decide, by decide⟩,
    by decide⟩

/-- C4: for every table with `1 ≤ store_size` and every key that no entry of
the chain of its bucket equals, `remove` returns `NULL` and the table after the
call is the table before it (`count`, `store_size` and every chain). -/
theorem remove_absent_returns_null (h : hashtable_t) (key : List Byte) (key_length : Nat)
    (h1 : 1 ≤ h.store_size) (h2 : h.store_size ≤ 2147483647)
    (h3 : (h.store.length : Int) = h.store_size)
    (hno : ∀ e, e ∈ h.store.getD (bucket_index h.store_size key key_length) [] →
      ¬ key_equal key key_length e) :
    bucket_index h.store_size key key_length < h.store.length
      ∧ ___hashtable_remove h key key_length = (NULL, h) := by
  refine ⟨bucket_index_lt h key key_length h1 h2 h3, ?_⟩
  have hfind : (h.store.getD (bucket_index h.store_size key key_length) []).find?
      (fun e => decide (key_equal key key_length e)) = none := by
    rw [List.find?_eq_none]
    intro x hx
    simpa using hno x hx
  rw [remove_eq, hfind]

theorem remove_absent_returns_null_witness :
    (∀ e, e ∈ one_bucket_table.store.getD (bucket_index one_bucket_table.store_size [0x7a] 1) [] →
        ¬ key_equal [0x7a] 1 e)
      ∧ bucket_index one_bucket_table.store_size [0x7a] 1 < one_bucket_table.store.length
      ∧ ___hashtable_remove one_bucket_table [0x7a] 1 = (NULL, one_bucket_table) :=
  ⟨by decide,
    remove_absent_returns_null one_bucket_table [0x7a] 1 (by decide) (by decide) (by decide)
      (by decide)⟩

/-- C5: for every table with `1 ≤ store_size`, every key and every item, `add`
makes the chain of the bucket of the key the old chain followed by the one new entry
at the end, leaves every other bucket unchanged, raises `count` by exactly 1
and keeps `store_size`; an entry with an equal key already in the chain does
not change this. -/
theorem add_appends_at_end (h : hashtable_t) (key : List Byte) (key_length : Nat)
    (item : Ptr) (h1 : 1 ≤ h.store_size) (h2 : h.store_size ≤ 2147483647)
    (h3 : (h.store.length : Int) = h.store_size) :
    ∃ chain,
      h.store[bucket_index h.store_size key key_length]? = some chain
      ∧ (___hashtable_add h key key_length item).store[bucket_index h.store_size key key_length]?
          = some (chain ++ [⟨key_length, key, item⟩])
      ∧ (∀ j, j ≠ bucket_index h.store_size key key_length →
          (___hashtable_add h key key_length item).store[j]? = h.store[j]?)
      ∧ (___hashtable_add h key key_length item).store.length = h.store.length
      ∧ (___hashtable_add h key key_length item).count = h.count + 1
      ∧ (___hashtable_add h key key_length item).store_size = h.store_size := by
  have hi := bucket_index_lt h key key_length h1 h2 h3
  refine ⟨h.store.getD (bucket_index h.store_size key key_length) [],
    getElem?_eq_some_getD h.store _ [] hi, ?_⟩
  rw [add_eq]
  refine ⟨?_, ?_, ?_, rfl, rfl⟩
  · simp [hi]
  · intro j hj
    simp [List.getElem?_set_ne (Ne.symm hj)]
  · simp

theorem add_appends_at_end_witness :
    (∃ e, e ∈ one_bucket_table.store.getD (bucket_index one_bucket_table.store_size [0x78] 1) []
        ∧ key_equal [0x78] 1 e)
      ∧ (∃ chain,
          one_bucket_table.store[bucket_index one_bucket_table.store_size [0x78] 1]? = some chain
            ∧ (___hashtable_add one_bucket_table [0x78] 1 40).store[
                  bucket_index one_bucket_table.store_size [0x78] 1]?
                = some (chain ++ [⟨1, [0x78], 40⟩])
            ∧ (∀ j, j ≠ bucket_index one_bucket_table.store_size [0x78] 1 →
                (___hashtable_add one_bucket_table [0x78] 1 40).store[j]?
                  = one_bucket_table.store[j]?)
            ∧ (___hashtable_add one_bucket_table [0x78] 1 40).store.length
                = one_bucket_table.store.length
            ∧ (___hashtable_add one_bucket_table [0x78] 1 40).count = one_bucket_table.count + 1
            ∧ (___hashtable_add one_bucket_table [0x78] 1 40).store_size
                = one_bucket_table.store_size)
      ∧ ___hashtable_add one_bucket_table [0x78] 1 40
          = ⟨4, 1, [[⟨1, [0x78], 10⟩, ⟨1, [0x79], 20⟩, ⟨1, [0x78], 30⟩, ⟨1, [0x78], 40⟩]]⟩ :=
  ⟨⟨⟨1, [0x78], 10⟩, by decide, by decide⟩,
    add_appends_at_end one_bucket_table [0x78] 1 40 (by decide) (by decide) (by decide),
    by decide⟩

/-- C6: for every table state reached from `create_hashtable n`, `n ≥ 1`, by
`add` and `remove` calls, whose chains hold exactly the entries
`model_entries ops` (earliest inserted first), and every key: right after
`remove` on the key, `get` on it returns the item of the second-earliest
inserted entry with an equal key when the table held at least two such entries
before the `remove`, and `NULL` otherwise. -/
theorem get_after_remove (n : Int) (h1 : 1 ≤ n) (h2 : n ≤ 2147483647) (ops : List Op)
    (key : List Byte) (key_length : Nat) :
    (∀ i, i < (run_ops (create_hashtable n) ops).store.length →
        (run_ops (create_hashtable n) ops).store.getD i []
          = (model_entries ops).filter
              (fun e => decide (bucket_index n e.key e.key_length = i)))
      ∧ ___hashtable_get
          (___hashtable_remove (run_ops (create_hashtable n) ops) key key_length).2
          key key_length
        = match (model_entries ops).filter (fun e => decide (key_equal key key_length e)) with
          | _ :: second :: _ => second.item
          | _ => NULL := by
  have hr := rep_reachable n h1 h2 ops
  have hn : (run_ops (create_hashtable n) ops).store_size = n := by
    have : ∀ (h : hashtable_t) (ops : List Op), (run_ops h ops).store_size = h.store_size := by
      intro h ops
      induction ops generalizing h with
      | nil => rfl
      | cons op ops ih =>
        simp only [run_ops, List.foldl_cons]
        rw [← run_ops, ih]
        cases op with
        | add key key_length item => rfl
        | remove key key_length =>
          simp only [apply_op, remove_eq]
          split <;> rfl
    exact this _ _
  refine ⟨?_, ?_⟩
  · have h5 := hr.2.2.2.2
    rw [hn] at h5
    exact h5
  · rw [rep_get _ _ key key_length (rep_remove _ _ key key_length hr).1, find_eraseP_eq_second]
    cases hf : (model_entries ops).filter (fun e => decide (key_equal key key_length e)) with
    | nil => rfl
    | cons a t =>
      cases t with
      | nil => rfl
      | cons b t => simp

theorem get_after_remove_witness :
    ((1 : Int) ≤ 4 ∧ (4 : Int) ≤ 2147483647)
      ∧ ((∀ i, i < (run_ops (create_hashtable 4)
              [.add [0x61] 1 1, .add [0x62] 1 2, .add [0x61] 1 3]).store.length →
            (run_ops (create_hashtable 4)
                [.add [0x61] 1 1, .add [0x62] 1 2, .add [0x61] 1 3]).store.getD i []
              = (model_entries [.add [0x61] 1 1, .add [0x62] 1 2, .add [0x61] 1 3]).filter
                  (fun e => decide (bucket_index 4 e.key e.key_length = i)))
          ∧ ___hashtable_get
              (___hashtable_remove (run_ops (create_hashtable 4)
                [.add [0x61] 1 1, .add [0x62] 1 2, .add [0x61] 1 3]) [0x61] 1).2 [0x61] 1
            = match (model_entries [.add [0x61] 1 1, .add [0x62] 1 2, .add [0x61] 1 3]).filter
                  (fun e => decide (key_equal [0x61] 1 e)) with
              | _ :: second :: _ => second.item
              | _ => NULL)
      ∧ ___hashtable_get
          (___hashtable_remove (run_ops (create_hashtable 4)
            [.add [0x61] 1 1, .add [0x62] 1 2, .add [0x61] 1 3]) [0x61] 1).2 [0x61] 1 = 3
      ∧ ___hashtable_get
          (___hashtable_remove (run_ops (create_hashtable 4)
            [.add [0x61] 1 1, .add [0x62] 1 2, .add [0x61] 1 3]) [0x62] 1).2 [0x62] 1 = NULL :=
  ⟨by decide,
    get_after_remove 4 (by decide) (by decide)
      [.add [0x61] 1 1, .add [0x62] 1 2, .add [0x61] 1 3] [0x61] 1,
    by decide, by decide⟩

/-- C7: for all byte sequences `a` and `b`, `___hashtable_compare_keys` called
with their lengths is nonzero exactly when the lengths are equal and the two
sequences hold the same byte at every position; a key and a proper extension of
it (such as `[0x41]` and `[0x41, 0x00]`) compare as different. -/
theorem compare_keys_nonzero_iff_same_length_and_bytes :
    (∀ a b : List Byte,
      (___hashtable_compare_keys a a.length b b.length ≠ 0
        ↔ a.length = b.length ∧ ∀ i, i < a.length → a.get? i = b.get? i))
    ∧ ___hashtable_compare_keys [0x41] 1 [0x41, 0x00] 2 = 0
    ∧ ___hashtable_compare_keys [0x41, 0x00] 2 [0x41] 1 = 0 := by
  refine ⟨?_, by decide, by decide⟩
  · intro a b
    rw [compare_keys_full_iff]
    constructor
    · rintro rfl
      exact ⟨rfl, fun _ _ => rfl⟩
    · rintro ⟨hl, hb⟩
      apply List.ext_get? 
      intro i
      by_cases hi : i < a.length
      · exact hb i hi
      · rw [List.get?_eq_none.mpr (by omega), List.get?_eq_none.mpr (by omega)]

/-- C8: for every key and every `max_key` with `1 ≤ max_key ≤ 2^31 - 1`,
`___hashtable_hash` returns `((H + max_key) mod 2^32) mod max_key`, where `H`
starts from 1 and is updated, for each byte `b` in order, to
`((H << 5) XOR sext(b) XOR H) mod 2^32`, with `sext(b)` the byte read as a signed
8-bit value and sign-extended to 32 bits. -/
theorem hash_eq_shift_xor_spec (key : List Byte) (max_key : Int) (h1 : 1 ≤ max_key)
    (h2 : max_key ≤ 2147483647) :
    ___hashtable_hash key key.length max_key
      = ((hash_spec key + max_key.toNat) % 4294967296) % max_key.toNat := by
  unfold ___hashtable_hash hash_spec
  rw [to_unsigned_of_pos max_key h1 h2, hash_loop_full,
    foldl_hash_body_eq_spec key 1 (by norm_num)]

theorem hash_eq_shift_xor_spec_witness :
    ((1 : Int) ≤ 7 ∧ (7 : Int) ≤ 2147483647)
      ∧ ___hashtable_hash [0x61, 0x80, 0xff] ([0x61, 0x80, 0xff] : List Byte).length 7
          = ((hash_spec [0x61, 0x80, 0xff] + (7 : Int).toNat) % 4294967296) % (7 : Int).toNat
      ∧ hash_spec [0x61, 0x80, 0xff] = 4294897727
      ∧ ___hashtable_hash [0x61, 0x80, 0xff] 3 7 = 1 :=
  ⟨by decide, hash_eq_shift_xor_spec [0x61, 0x80, 0xff] 7 (by decide) (by decide),
    by decide, by decide⟩

/-- C9: for every key and every bucket count `n` with `1 ≤ n ≤ 2^31 - 1`, the
modulus of `___hashtable_hash` is not zero and the returned value, also after
its conversion to the `int` index of `add`, `get` and `remove`, lies in
`[0, n)`, so it is a position of the store array of `create_hashtable n`. -/
theorem hash_index_in_range (key : List Byte) (key_len : Nat) (n : Int) (h1 : 1 ≤ n)
    (h2 : n ≤ 2147483647) :
    to_unsigned n ≠ 0
      ∧ ((___hashtable_hash key key_len n : Nat) : Int) < n
      ∧ 0 ≤ to_int (___hashtable_hash key key_len n)
      ∧ to_int (___hashtable_hash key key_len n) < n
      ∧ (to_int (___hashtable_hash key key_len n)).toNat < (create_hashtable n).store.length := by
  have hl := hash_lt key key_len n h1 h2
  have hu := to_unsigned_of_pos n h1 h2
  have hi : to_int (___hashtable_hash key key_len n) = ((___hashtable_hash key key_len n : Nat) : Int) :=
    to_int_of_lt _ (by omega)
  refine ⟨by omega, by omega, by omega, by omega, ?_⟩
  simp only [create_hashtable, List.length_replicate]
  omega

theorem hash_index_in_range_witness :
    ((1 : Int) ≤ 4 ∧ (4 : Int) ≤ 2147483647)
      ∧ to_unsigned 4 ≠ 0
      ∧ ((___hashtable_hash [0x62] 1 4 : Nat) : Int) < 4
      ∧ 0 ≤ to_int (___hashtable_hash [0x62] 1 4)
      ∧ to_int (___hashtable_hash [0x62] 1 4) < 4
      ∧ (to_int (___hashtable_hash [0x62] 1 4)).toNat < (create_hashtable 4).store.length :=
  ⟨by decide, hash_index_in_range [0x62] 1 4 (by decide) (by decide)⟩

/-- C10 as stated fails: with 3 buckets the key `"yfffffff"` has the loop value
`2^32 - 2`, whose remainder modulo 3 is 2, while `___hashtable_hash` returns 1
and `add` files the node in the chain of bucket 1. -/
theorem index_ne_hash_mod_bucket_count :
    hash_loop [121, 102, 102, 102, 102, 102, 102, 102] 8 0 1 = 4294967294
      ∧ hash_loop [121, 102, 102, 102, 102, 102, 102, 102] 8 0 1 % 3 = 2
      ∧ to_int (___hashtable_hash [121, 102, 102, 102, 102, 102, 102, 102] 8 3) = 1
      ∧ (___hashtable_add (create_hashtable 3) [121, 102, 102, 102, 102, 102, 102, 102] 8 7).store
          = [[], [⟨8, [121, 102, 102, 102, 102, 102, 102, 102], 7⟩], []]
      ∧ to_int (___hashtable_hash [121, 102, 102, 102, 102, 102, 102, 102] 8 3)
          ≠ ((hash_loop [121, 102, 102, 102, 102, 102, 102, 102] 8 0 1 % 3 : Nat) : Int) := by
  decide

/-- C10 amended: for every key and every bucket count `n` with
`1 ≤ n ≤ 2^31 - 1`, the bucket index is `((hash + n) mod 2^32) mod n`, where
`hash` is the value of the per-byte loop; it equals `hash mod n` whenever
`hash + n < 2^32`, and `(hash + n - 2^32) mod n` otherwise. -/
theorem index_eq_wrapped_sum_mod (key : List Byte) (key_len : Nat) (n : Int) (h1 : 1 ≤ n)
    (h2 : n ≤ 2147483647) :
    to_int (___hashtable_hash key key_len n)
        = (((hash_loop key key_len 0 1 + n.toNat) % 4294967296 % n.toNat : Nat) : Int)
      ∧ (hash_loop key key_len 0 1 + n.toNat < 4294967296 →
          to_int (___hashtable_hash key key_len n)
            = ((hash_loop key key_len 0 1 % n.toNat : Nat) : Int))
      ∧ (4294967296 ≤ hash_loop key key_len 0 1 + n.toNat →
          to_int (___hashtable_hash key key_len n)
            = (((hash_loop key key_len 0 1 + n.toNat - 4294967296) % n.toNat : Nat) : Int)) := by
  have hl := hash_lt key key_len n h1 h2
  have hH := hash_loop_lt key key_len 0 1 (by norm_num)
  have hi : to_int (___hashtable_hash key key_len n) = ((___hashtable_hash key key_len n : Nat) : Int) :=
    to_int_of_lt _ (by omega)
  have hd : ___hashtable_hash key key_len n
      = (hash_loop key key_len 0 1 + n.toNat) % 4294967296 % n.toNat := by
    unfold ___hashtable_hash
    rw [to_unsigned_of_pos n h1 h2]
  rw [hi, hd]
  refine ⟨rfl, ?_, ?_⟩
  · intro hlt
    rw [Nat.mod_eq_of_lt hlt, Nat.add_mod_right]
  · intro hge
    have : (hash_loop key key_len 0 1 + n.toNat) % 4294967296
        = hash_loop key key_len 0 1 + n.toNat - 4294967296 := by omega
    rw [this]

theorem index_eq_wrapped_sum_mod_witness :
    ((1 : Int) ≤ 3 ∧ (3 : Int) ≤ 2147483647)
      ∧ to_int (___hashtable_hash [121, 102, 102, 102, 102, 102, 102, 102] 8 3)
        = (((hash_loop [121, 102, 102, 102, 102, 102, 102, 102] 8 0 1 + (3 : Int).toNat)
            % 4294967296 % (3 : Int).toNat : Nat) : Int)
      ∧ (hash_loop [121, 102, 102, 102, 102, 102, 102, 102] 8 0 1 + (3 : Int).toNat < 4294967296 →
          to_int (___hashtable_hash [121, 102, 102, 102, 102, 102, 102, 102] 8 3)
            = ((hash_loop [121, 102, 102, 102, 102, 102, 102, 102] 8 0 1 % (3 : Int).toNat : Nat) : Int))
      ∧ (4294967296 ≤ hash_loop [121, 102, 102, 102, 102, 102, 102, 102] 8 0 1 + (3 : Int).toNat →
          to_int (___hashtable_hash [121, 102, 102, 102, 102, 102, 102, 102] 8 3)
            = (((hash_loop [121, 102, 102, 102, 102, 102, 102, 102] 8 0 1 + (3 : Int).toNat - 4294967296)
                % (3 : Int).toNat : Nat) : Int)) :=
  ⟨by decide,
    index_eq_wrapped_sum_mod [121, 102, 102, 102, 102, 102, 102, 102] 8 3 (by decide) (by decide)⟩

/-- C11: for every `n ≥ 1` and every finite sequence of `add` and `remove`
calls on `create_hashtable n`, with `N` the number of `add` calls and `M` the
number of `remove` calls that found a matching entry, the final `count` is
`N - M` (`count` as an unbounded integer). -/
theorem count_eq_adds_minus_found_removes (n : Int) (_h1 : 1 ≤ n) (_h2 : n ≤ 2147483647)
    (ops : List Op) :
    (run_ops (create_hashtable n) ops).count
      = (count_adds ops : Int) - (count_found_removes (create_hashtable n) ops : Int) := by
  rw [count_run]
  simp [create_hashtable]

theorem count_eq_adds_minus_found_removes_witness :
    ((1 : Int) ≤ 4 ∧ (4 : Int) ≤ 2147483647)
      ∧ (run_ops (create_hashtable 4)
            [.add [0x61] 1 1, .remove [0x7a] 1, .add [0x62] 1 2, .add [0x61] 1 3,
              .remove [0x61] 1, .remove [0x62] 1, .remove [0x62] 1]).count
          = (count_adds
              [.add [0x61] 1 1, .remove [0x7a] 1, .add [0x62] 1 2, .add [0x61] 1 3,
                .remove [0x61] 1, .remove [0x62] 1, .remove [0x62] 1] : Int)
            - (count_found_removes (create_hashtable 4)
                [.add [0x61] 1 1, .remove [0x7a] 1, .add [0x62] 1 2, .add [0x61] 1 3,
                  .remove [0x61] 1, .remove [0x62] 1, .remove [0x62] 1] : Int)
      ∧ count_adds
          [.add [0x61] 1 1, .remove [0x7a] 1, .add [0x62] 1 2, .add [0x61] 1 3,
            .remove [0x61] 1, .remove [0x62] 1, .remove [0x62] 1] = 3
      ∧ count_found_removes (create_hashtable 4)
          [.add [0x61] 1 1, .remove [0x7a] 1, .add [0x62] 1 2, .add [0x61] 1 3,
            .remove [0x61] 1, .remove [0x62] 1, .remove [0x62] 1] = 2
      ∧ (run_ops (create_hashtable 4)
          [.add [0x61] 1 1, .remove [0x7a] 1, .add [0x62] 1 2, .add [0x61] 1 3,
            .remove [0x61] 1, .remove [0x62] 1, .remove [0x62] 1]).count = 1 :=
  ⟨by decide,
    count_eq_adds_minus_found_removes 4 (by decide) (by decide)
      [.add [0x61] 1 1, .remove [0x7a] 1, .add [0x62] 1 2, .add [0x61] 1 3,
        .remove [0x61] 1, .remove [0x62] 1, .remove [0x62] 1],
    by decide, by decide, by decide⟩

/-- C12: duplicate-key shadowing. For every `n ≥ 1`, every two distinct keys
`a` and `b` and all items `v1`, `v2`, `v3`, on `create_hashtable n` after
`add(a, v1)`, `add(b, v2)`, `add(a, v3)`: `get(a)` returns `v1`, `remove(a)`
returns `v1`, and `get(a)` after that `remove` returns `v3`. -/
theorem duplicate_key_shadowing (n : Int) (h1 : 1 ≤ n) (h2 : n ≤ 2147483647)
    (a b : List Byte) (hab : a ≠ b) (v1 v2 v3 : Ptr) :
    ___hashtable_get
        (___hashtable_add (___hashtable_add (___hashtable_add (create_hashtable n)
          a a.length v1) b b.length v2) a a.length v3) a a.length = v1
      ∧ (___hashtable_remove
          (___hashtable_add (___hashtable_add (___hashtable_add (create_hashtable n)
            a a.length v1) b b.length v2) a a.length v3) a a.length).1 = v1
      ∧ ___hashtable_get
          (___hashtable_remove
            (___hashtable_add (___hashtable_add (___hashtable_add (create_hashtable n)
              a a.length v1) b b.length v2) a a.length v3) a a.length).2 a a.length = v3 := by
  have hr := rep_three_adds n h1 h2 a b v1 v2 v3
  have hrem := rep_remove _ _ a a.length hr
  have hba : ¬ b = a := fun e => hab e.symm
  refine ⟨?_, ?_, ?_⟩
  · rw [rep_get _ _ a a.length hr]
    simp [List.find?_cons, key_equal_full_decide]
  · rw [hrem.2]
    simp [List.find?_cons, key_equal_full_decide]
  · rw [rep_get _ _ a a.length hrem.1]
    simp [List.find?_cons, List.eraseP_cons, key_equal_full_decide, hba]

theorem duplicate_key_shadowing_witness :
    ((1 : Int) ≤ 4 ∧ (4 : Int) ≤ 2147483647 ∧ ([0x61] : List Byte) ≠ [0x62])
      ∧ (___hashtable_get
            (___hashtable_add (___hashtable_add (___hashtable_add (create_hashtable 4)
              [0x61] ([0x61] : List Byte).length 1) [0x62] ([0x62] : List Byte).length 2)
              [0x61] ([0x61] : List Byte).length 3) [0x61] ([0x61] : List Byte).length = 1
          ∧ (___hashtable_remove
              (___hashtable_add (___hashtable_add (___hashtable_add (create_hashtable 4)
                [0x61] ([0x61] : List Byte).length 1) [0x62] ([0x62] : List Byte).length 2)
                [0x61] ([0x61] : List Byte).length 3) [0x61] ([0x61] : List Byte).length).1 = 1
          ∧ ___hashtable_get
              (___hashtable_remove
                (___hashtable_add (___hashtable_add (___hashtable_add (create_hashtable 4)
                  [0x61] ([0x61] : List Byte).length 1) [0x62] ([0x62] : List Byte).length 2)
                  [0x61] ([0x61] : List Byte).length 3) [0x61] ([0x61] : List Byte).length).2
              [0x61] ([0x61] : List Byte).length = 3)
      ∧ ___hashtable_get scenario_table [0x61] 1 = 1
      ∧ (___hashtable_remove scenario_table [0x61] 1).1 = 1
      ∧ ___hashtable_get (___hashtable_remove scenario_table [0x61] 1).2 [0x61] 1 = 3 :=
  ⟨by decide, duplicate_key_shadowing 4 (by decide) (by decide) [0x61] [0x62] (by decide) 1 2 3,
    by decide, by decide, by decide⟩

/-- C13 as stated fails: in the scenario `create_hashtable(4); add("a", 1);
add("b", 2); add("a", 3); remove("a")` the field `count` is 3, not 2, just
before the `remove("a")` call and 2, not 1, just after it. -/
theorem scenario_count_not_two_then_one :
    ¬ (scenario_table.count = 2 ∧ (___hashtable_remove scenario_table [0x61] 1).2.count = 1) := by
  decide

/-- C13 amended: in the scenario `create_hashtable(4); add("a", 1);
add("b", 2); add("a", 3); remove("a")` the field `count` is 3 just before the
`remove("a")` call (one for each of the three entries, the duplicate included)
and 2 just after it. -/
theorem scenario_count_three_then_two :
    scenario_table
        = ___hashtable_add (___hashtable_add (___hashtable_add (create_hashtable 4)
            [0x61] 1 1) [0x62] 1 2) [0x61] 1 3
      ∧ scenario_table.count = 3
      ∧ (___hashtable_remove scenario_table [0x61] 1).2.count = 2 := by
  decide

/-- C14: `___hashtable_is_empty` returns nonzero exactly when `count` is 0; so
for every `n ≥ 1`, key and item it is nonzero on `create_hashtable n`, zero
after `add` of the key, and nonzero again after `remove` of the key. -/
theorem is_empty_iff_count_zero (n : Int) (h1 : 1 ≤ n) (h2 : n ≤ 2147483647)
    (key : List Byte) (key_length : Nat) (item : Ptr) :
    (∀ h : hashtable_t, ___hashtable_is_empty h ≠ 0 ↔ h.count = 0)
      ∧ ___hashtable_is_empty (create_hashtable n) ≠ 0
      ∧ ___hashtable_is_empty (___hashtable_add (create_hashtable n) key key_length item) = 0
      ∧ ___hashtable_is_empty
          (___hashtable_remove (___hashtable_add (create_hashtable n) key key_length item)
            key key_length).2 ≠ 0 := by
  have hiff : ∀ h : hashtable_t, ___hashtable_is_empty h ≠ 0 ↔ h.count = 0 := by
    intro h
    unfold ___hashtable_is_empty
    split <;> simp_all
  have hr := rep_one_add n h1 h2 key key_length item
  have hrem := (rep_remove _ _ key key_length hr).1
  have hself : key_equal key key_length ⟨key_length, key, item⟩ := key_equal_self _ _ _
  refine ⟨hiff, ?_, ?_, ?_⟩
  · rw [hiff]
    rfl
  · have hc : (___hashtable_add (create_hashtable n) key key_length item).count = 1 := rfl
    simp [___hashtable_is_empty, hc]
  · rw [hiff, hrem.2.2.2.1]
    simp [List.eraseP_cons, hself]

theorem is_empty_iff_count_zero_witness :
    ((1 : Int) ≤ 4 ∧ (4 : Int) ≤ 2147483647)
      ∧ ((∀ h : hashtable_t, ___hashtable_is_empty h ≠ 0 ↔ h.count = 0)
          ∧ ___hashtable_is_empty (create_hashtable 4) ≠ 0
          ∧ ___hashtable_is_empty (___hashtable_add (create_hashtable 4) [0x61] 1 7) = 0
          ∧ ___hashtable_is_empty
              (___hashtable_remove (___hashtable_add (create_hashtable 4) [0x61] 1 7)
                [0x61] 1).2 ≠ 0)
      ∧ ___hashtable_is_empty (create_hashtable 4) = 1
      ∧ ___hashtable_is_empty
          (___hashtable_remove (___hashtable_add (create_hashtable 4) [0x61] 1 7)
            [0x61] 1).2 = 1 :=
  ⟨by decide, is_empty_iff_count_zero 4 (by decide) (by decide) [0x61] 1 7,
    by decide, by decide⟩

/-- C15: for every table and every key, `get` leaves the table unchanged: the
table after the call (its `count`, `store_size` and every bucket chain, entries
and order) is the table before it, whether or not a match is found; the
pointer returned is that of `___hashtable_get`. -/
theorem get_leaves_table_unchanged (h : hashtable_t) (key : List Byte) (key_length : Nat) :
    (get_call h key key_length).2 = h
      ∧ (get_call h key key_length).1 = ___hashtable_get h key key_length := by
  simp only [get_call, ___hashtable_get, get_loop_eq]
  cases get_walk key key_length
      (h.store.getD (to_int (___hashtable_hash key key_length h.store_size)).toNat []) with
  | none => exact ⟨rfl, rfl⟩
  | some node => exact ⟨rfl, rfl⟩

/-- C16 as stated fails: `create_hashtable` reports no failure for a
`store_size` of 0 or -1; it returns a table whose `store_size` is that value,
and with 0 the modulus of the hash of a later call is zero. -/
theorem create_hashtable_accepts_nonpositive :
    (create_hashtable 0).store_size = 0
      ∧ (create_hashtable (-1)).store_size = -1
      ∧ to_unsigned (create_hashtable 0).store_size = 0 := by
  decide

/-- C16 amended: `create_hashtable` does not check `store_size`; for every
`store_size`, the values `≤ 0` included, it returns a table whose `store_size`
field is the argument and whose `count` is 0. -/
theorem create_hashtable_keeps_store_size (store_size : Int) :
    (create_hashtable store_size).store_size = store_size
      ∧ (create_hashtable store_size).count = 0 :=
  ⟨rfl, rfl⟩

/-- C17 fails on the code: for every table whose store has `store_size` chains,
`___hashtable_destroy` releases each entry node of every chain once (in bucket
order, chain order) and then the `hashtable_t` struct, and nothing else: no
item payload, and not the bucket array `store`, which the claim says is
released. -/
theorem destroy_releases_nodes_and_table_only (h : hashtable_t)
    (h3 : (h.store.length : Int) = h.store_size) :
    ___hashtable_destroy h = h.store.flatten.map Block.node ++ [Block.table]
      ∧ Block.store ∉ ___hashtable_destroy h
      ∧ Block.table ∈ ___hashtable_destroy h
      ∧ ∀ p, Block.item p ∉ ___hashtable_destroy h := by
  rw [destroy_eq h h3]
  refine ⟨rfl, ?_, ?_, ?_⟩
  · simp
  · simp
  · intro p
    simp

theorem destroy_releases_nodes_and_table_only_witness :
    ((one_bucket_table.store.length : Int) = one_bucket_table.store_size)
      ∧ (___hashtable_destroy one_bucket_table
            = one_bucket_table.store.flatten.map Block.node ++ [Block.table]
          ∧ Block.store ∉ ___hashtable_destroy one_bucket_table
          ∧ Block.table ∈ ___hashtable_destroy one_bucket_table
          ∧ ∀ p, Block.item p ∉ ___hashtable_destroy one_bucket_table)
      ∧ ___hashtable_destroy one_bucket_table
          = [Block.node ⟨1, [0x78], 10⟩, Block.node ⟨1, [0x79], 20⟩,
              Block.node ⟨1, [0x78], 30⟩, Block.table]
      ∧ ___hashtable_destroy (create_hashtable 1) = [Block.table] :=
  ⟨by decide, destroy_releases_nodes_and_table_only one_bucket_table (by decide),
    by decide, by decide⟩

/-- C18: observational equivalence with an insertion-ordered association list.
For every `n ≥ 1` and every finite interleaving of `add`, `get` and `remove`
calls on `create_hashtable n`, the `get` and `remove` calls return, call by
call, what they return on the list model (`add` appends at the end, `get`
returns the item of the first pair with an equal key or `NULL`, `remove`
deletes and returns the first such pair or `NULL`); so the results are the same
for every other bucket count `m ≥ 1`. -/
theorem calls_agree_with_list_model (n m : Int) (h1 : 1 ≤ n) (h2 : n ≤ 2147483647)
    (h3 : 1 ≤ m) (h4 : m ≤ 2147483647) (calls : List Call) :
    run_calls (create_hashtable n) calls = list_calls [] calls
      ∧ run_calls (create_hashtable n) calls = run_calls (create_hashtable m) calls := by
  have hn := rep_calls _ _ calls (rep_create n h1 h2)
  have hm := rep_calls _ _ calls (rep_create m h3 h4)
  exact ⟨hn, by rw [hn, hm]⟩

theorem calls_agree_with_list_model_witness :
    ((1 : Int) ≤ 4 ∧ (4 : Int) ≤ 2147483647 ∧ (1 : Int) ≤ 1 ∧ (1 : Int) ≤ 2147483647)
      ∧ (run_calls (create_hashtable 4)
              [.add [0x61] 1 1, .add [0x62] 1 2, .add [0x61] 1 3, .get [0x61] 1,
                .remove [0x61] 1, .get [0x61] 1, .remove [0x7a] 1, .get [0x62] 1]
            = list_calls []
              [.add [0x61] 1 1, .add [0x62] 1 2, .add [0x61] 1 3, .get [0x61] 1,
                .remove [0x61] 1, .get [0x61] 1, .remove [0x7a] 1, .get [0x62] 1]
          ∧ run_calls (create_hashtable 4)
              [.add [0x61] 1 1, .add [0x62] 1 2, .add [0x61] 1 3, .get [0x61] 1,
                .remove [0x61] 1, .get [0x61] 1, .remove [0x7a] 1, .get [0x62] 1]
            = run_calls (create_hashtable 1)
              [.add [0x61] 1 1, .add [0x62] 1 2, .add [0x61] 1 3, .get [0x61] 1,
                .remove [0x61] 1, .get [0x61] 1, .remove [0x7a] 1, .get [0x62] 1])
      ∧ run_calls (create_hashtable 4)
          [.add [0x61] 1 1, .add [0x62] 1 2, .add [0x61] 1 3, .get [0x61] 1,
            .remove [0x61] 1, .get [0x61] 1, .remove [0x7a] 1, .get [0x62] 1]
        = [1, 1, 3, NULL, 2] :=
  ⟨by decide,
    calls_agree_with_list_model 4 1 (by decide) (by decide) (by decide) (by decide)
      [.add [0x61] 1 1, .add [0x62] 1 2, .add [0x61] 1 3, .get [0x61] 1,
        .remove [0x61] 1, .get [0x61] 1, .remove [0x7a] 1, .get [0x62] 1],
    by decide⟩

/-- C19: bucket-placement invariant. In every table state reached from
`create_hashtable n`, `n ≥ 1`, by `add` and `remove` calls, every entry in the
chain of bucket `i` satisfies `___hashtable_hash(entry.key, entry.key_length,
n) = i`; hence every stored entry whose key equals a key `k` is in the chain of
the bucket of `k`, the only chain that `get` and `remove` scan. -/
theorem entries_are_in_their_bucket (n : Int) (h1 : 1 ≤ n) (h2 : n ≤ 2147483647)
    (ops : List Op) :
    (∀ i e, i < (run_ops (create_hashtable n) ops).store.length →
        e ∈ (run_ops (create_hashtable n) ops).store.getD i [] →
        ___hashtable_hash e.key e.key_length n = i)
      ∧ (∀ key key_length i e, i < (run_ops (create_hashtable n) ops).store.length →
          e ∈ (run_ops (create_hashtable n) ops).store.getD i [] →
          key_equal key key_length e →
          i = bucket_index n key key_length) := by
  have hr := rep_reachable n h1 h2 ops
  have hn := run_ops_store_size (create_hashtable n) ops
  have hs : (create_hashtable n).store_size = n := rfl
  rw [hs] at hn
  have h5 := hr.2.2.2.2
  rw [hn] at h5
  have hb : ∀ i e, i < (run_ops (create_hashtable n) ops).store.length →
      e ∈ (run_ops (create_hashtable n) ops).store.getD i [] →
      bucket_index n e.key e.key_length = i := by
    intro i e hi he
    rw [h5 i hi] at he
    simpa using (List.mem_filter.mp he).2
  refine ⟨?_, ?_⟩
  · intro i e hi he
    rw [← bucket_index_eq_hash n h1 h2]
    exact hb i e hi he
  · intro key key_length i e hi he hk
    rw [← key_equal_bucket n key key_length e hk]
    exact (hb i e hi he).symm

theorem entries_are_in_their_bucket_witness :
    ((1 : Int) ≤ 4 ∧ (4 : Int) ≤ 2147483647)
      ∧ ((∀ i e, i < (run_ops (create_hashtable 4)
                [.add [0x61] 1 1, .add [0x62] 1 2, .add [0x61] 1 3, .remove [0x61] 1]).store.length →
            e ∈ (run_ops (create_hashtable 4)
                [.add [0x61] 1 1, .add [0x62] 1 2, .add [0x61] 1 3, .remove [0x61] 1]).store.getD i [] →
            ___hashtable_hash e.key e.key_length 4 = i)
          ∧ (∀ key key_length i e, i < (run_ops (create_hashtable 4)
                [.add [0x61] 1 1, .add [0x62] 1 2, .add [0x61] 1 3, .remove [0x61] 1]).store.length →
              e ∈ (run_ops (create_hashtable 4)
                [.add [0x61] 1 1, .add [0x62] 1 2, .add [0x61] 1 3, .remove [0x61] 1]).store.getD i [] →
              key_equal key key_length e →
              i = bucket_index 4 key key_length))
      ∧ (run_ops (create_hashtable 4)
            [.add [0x61] 1 1, .add [0x62] 1 2, .add [0x61] 1 3, .remove [0x61] 1]).store
          = [[⟨1, [0x61], 3⟩], [], [], [⟨1, [0x62], 2⟩]]
      ∧ ___hashtable_hash [0x61] 1 4 = 0
      ∧ ___hashtable_hash [0x62] 1 4 = 3 :=
  ⟨by decide,
    entries_are_in_their_bucket 4 (by decide) (by decide)
      [.add [0x61] 1 1, .add [0x62] 1 2, .add [0x61] 1 3, .remove [0x61] 1],
    by decide, by decide, by decide⟩

/-- C20: a `NULL` result does not imply absence. For every `n ≥ 1` and every
key, after `add` of the key with the item `NULL` on `create_hashtable n`: an
entry with the key is stored and `count` is 1, yet `get` returns `NULL`; and
`remove` returns `NULL` while it unlinks that entry (the chain becomes empty)
and lowers `count` from 1 to 0, so the table after the call differs from the
table before it. -/
theorem null_result_does_not_imply_absence (n : Int) (h1 : 1 ≤ n) (h2 : n ≤ 2147483647)
    (key : List Byte) (key_length : Nat) :
    (___hashtable_add (create_hashtable n) key key_length NULL).store[
          bucket_index n key key_length]? = some [⟨key_length, key, NULL⟩]
      ∧ key_equal key key_length ⟨key_length, key, NULL⟩
      ∧ (___hashtable_add (create_hashtable n) key key_length NULL).count = 1
      ∧ ___hashtable_get (___hashtable_add (create_hashtable n) key key_length NULL)
          key key_length = NULL
      ∧ (___hashtable_remove (___hashtable_add (create_hashtable n) key key_length NULL)
          key key_length).1 = NULL
      ∧ (___hashtable_remove (___hashtable_add (create_hashtable n) key key_length NULL)
          key key_length).2.store[bucket_index n key key_length]? = some []
      ∧ (___hashtable_remove (___hashtable_add (create_hashtable n) key key_length NULL)
          key key_length).2.count = 0
      ∧ (___hashtable_remove (___hashtable_add (create_hashtable n) key key_length NULL)
          key key_length).2 ≠ ___hashtable_add (create_hashtable n) key key_length NULL := by
  have hr := rep_one_add n h1 h2 key key_length NULL
  have hrem := rep_remove _ _ key key_length hr
  have hself : key_equal key key_length ⟨key_length, key, NULL⟩ := key_equal_self _ _ _
  have hs : (___hashtable_add (create_hashtable n) key key_length NULL).store_size = n := rfl
  have hs2 : (___hashtable_remove (___hashtable_add (create_hashtable n) key key_length NULL)
      key key_length).2.store_size = n := by
    rw [remove_eq]
    split <;> rfl
  have hc : (___hashtable_add (create_hashtable n) key key_length NULL).count = 1 := rfl
  have hc2 : (___hashtable_remove (___hashtable_add (create_hashtable n) key key_length NULL)
      key key_length).2.count = 0 := by
    rw [hrem.1.2.2.2.1]
    simp [List.eraseP_cons, hself]
  have hi : bucket_index n key key_length
      < (___hashtable_add (create_hashtable n) key key_length NULL).store.length := by
    have := bucket_index_lt _ key key_length hr.1 hr.2.1 hr.2.2.1
    rw [hs] at this
    exact this
  have hi2 : bucket_index n key key_length
      < (___hashtable_remove (___hashtable_add (create_hashtable n) key key_length NULL)
        key key_length).2.store.length := by
    have := bucket_index_lt _ key key_length hrem.1.1 hrem.1.2.1 hrem.1.2.2.1
    rw [hs2] at this
    exact this
  refine ⟨?_, hself, hc, ?_, ?_, ?_, hc2, ?_⟩
  · rw [getElem?_eq_some_getD _ _ [] hi, hr.2.2.2.2 _ hi, hs]
    simp [List.filter_cons]
  · rw [rep_get _ _ key key_length hr]
    simp [List.find?_cons, hself]
  · rw [hrem.2]
    simp [List.find?_cons, hself]
  · rw [getElem?_eq_some_getD _ _ [] hi2, hrem.1.2.2.2.2 _ hi2]
    simp [List.eraseP_cons, hself]
  · intro he
    rw [he, hc] at hc2
    exact absurd hc2 (by decide)

theorem null_result_does_not_imply_absence_witness :
    ((1 : Int) ≤ 4 ∧ (4 : Int) ≤ 2147483647)
      ∧ ((___hashtable_add (create_hashtable 4) [0x62] 1 NULL).store[
              bucket_index 4 [0x62] 1]? = some [⟨1, [0x62], NULL⟩]
          ∧ key_equal [0x62] 1 ⟨1, [0x62], NULL⟩
          ∧ (___hashtable_add (create_hashtable 4) [0x62] 1 NULL).count = 1
          ∧ ___hashtable_get (___hashtable_add (create_hashtable 4) [0x62] 1 NULL) [0x62] 1 = NULL
          ∧ (___hashtable_remove (___hashtable_add (create_hashtable 4) [0x62] 1 NULL)
              [0x62] 1).1 = NULL
          ∧ (___hashtable_remove (___hashtable_add (create_hashtable 4) [0x62] 1 NULL)
              [0x62] 1).2.store[bucket_index 4 [0x62] 1]? = some []
          ∧ (___hashtable_remove (___hashtable_add (create_hashtable 4) [0x62] 1 NULL)
              [0x62] 1).2.count = 0
          ∧ (___hashtable_remove (___hashtable_add (create_hashtable 4) [0x62] 1 NULL)
              [0x62] 1).2 ≠ ___hashtable_add (create_hashtable 4) [0x62] 1 NULL)
      ∧ ___hashtable_remove (___hashtable_add (create_hashtable 4) [0x62] 1 NULL) [0x62] 1
          = (NULL, create_hashtable 4) :=
  ⟨by decide, null_result_does_not_imply_absence 4 (by decide) (by decide) [0x62] 1,
    by decide⟩

end Hashtable
